import Mathlib

/-!
Shallow embedding of the Storm core library (storm-core): data model,
commitment scheme and p2p wire protocol, together with proofs of the
specification's testable properties.

Bytes are modelled as `Nat` values below 256, byte strings as `List Nat`.
Fixed-width integers are `Nat` with explicit reduction modulo `2^w` at the
places the code truncates.  Fallible operations return `Option` or `Except`.
-/

namespace Storm


/-! ## Strict-encoding primitives

The wire format ("strict encoding") uses little-endian fixed-width integers
and length-prefixed collections: `u16` length prefixes for ordinary vectors,
strings and sets, and a 3-byte (`u24`) length prefix for `MediumVec`.
-/

/-- Little-endian 2-byte encoding of a `u16` value. -/
def encU16 (n : Nat) : List Nat := [n % 256, n / 256 % 256]

/-- Little-endian 3-byte encoding of a `u24` value (`MediumVec` length prefix). -/
def encU24 (n : Nat) : List Nat := [n % 256, n / 256 % 256, n / 65536 % 256]

/-- Little-endian 8-byte encoding of a `u64` value. -/
def encU64 (n : Nat) : List Nat :=
  [n % 256, n / 256 % 256, n / 65536 % 256, n / 16777216 % 256,
   n / 4294967296 % 256, n / 1099511627776 % 256,
   n / 281474976710656 % 256, n / 72057594037927936 % 256]

/-- Read a little-endian `u16` from the front of a byte stream. -/
def rdU16 : List Nat → Option (Nat × List Nat)
  | b0 :: b1 :: r => some (b0 + 256 * b1, r)
  | _ => none

/-- Read a little-endian `u24` from the front of a byte stream. -/
def rdU24 : List Nat → Option (Nat × List Nat)
  | b0 :: b1 :: b2 :: r => some (b0 + 256 * b1 + 65536 * b2, r)
  | _ => none

/-- Read a little-endian `u64` from the front of a byte stream. -/
def rdU64 : List Nat → Option (Nat × List Nat)
  | b0 :: b1 :: b2 :: b3 :: b4 :: b5 :: b6 :: b7 :: r =>
    some (b0 + 256 * b1 + 65536 * b2 + 16777216 * b3 + 4294967296 * b4 +
      1099511627776 * b5 + 281474976710656 * b6 + 72057594037927936 * b7, r)
  | _ => none

/-- Read exactly `n` raw bytes from the front of a byte stream. -/
def rdBytes (n : Nat) (l : List Nat) : Option (List Nat × List Nat) :=
  if n ≤ l.length then some (l.take n, l.drop n) else none

/-- Concatenate the encodings of the elements of a list. -/
def encList (enc : α → List Nat) : List α → List Nat
  | [] => []
  | x :: xs => enc x ++ encList enc xs

/-- Read `n` consecutive values with the element reader `rd`. -/
def rdList (rd : List Nat → Option (α × List Nat)) :
    Nat → List Nat → Option (List α × List Nat)
  | 0, l => some ([], l)
  | n + 1, l =>
    (rd l).bind fun al =>
      (rdList rd n al.2).map fun asl => (al.1 :: asl.1, asl.2)

/-! ## SHA-256

All identifiers of the library are SHA-256 digests (`bitcoin_hashes::sha256`).
Words are `Nat` values reduced modulo `2^32`.  The tagged identifiers
(`ContainerId`, `MesgId`) start the hash from a precomputed midstate instead
of the standard initialisation vector, with the length counter advanced by
the 64 tag bytes already absorbed (`HashEngine::from_midstate(midstate, 64)`).
-/

/-- Addition modulo `2^32`. -/
def add32 (a b : Nat) : Nat := (a + b) % 4294967296

/-- Right rotation of a 32-bit word. -/
def rotr32 (n x : Nat) : Nat :=
  ((x >>> n) ||| (x <<< (32 - n))) % 4294967296

/-- SHA-256 round constants. -/
def sha256K : List Nat :=
  [1116352408, 1899447441, 3049323471, 3921009573, 961987163, 1508970993,
   2453635748, 2870763221, 3624381080, 310598401, 607225278, 1426881987,
   1925078388, 2162078206, 2614888103, 3248222580, 3835390401, 4022224774,
   264347078, 604807628, 770255983, 1249150122, 1555081692, 1996064986,
   2554220882, 2821834349, 2952996808, 3210313671, 3336571891, 3584528711,
   113926993, 338241895, 666307205, 773529912, 1294757372, 1396182291,
   1695183700, 1986661051, 2177026350, 2456956037, 2730485921, 2820302411,
   3259730800, 3345764771, 3516065817, 3600352804, 4094571909, 275423344,
   430227734, 506948616, 659060556, 883997877, 958139571, 1322822218,
   1537002063, 1747873779, 1955562222, 2024104815, 2227730452, 2361852424,
   2428436474, 2756734187, 3204031479, 3329325298]

/-- SHA-256 initial hash state. -/
def sha256IV : List Nat :=
  [1779033703, 3144134277, 1013904242, 2773480762,
   1359893119, 2600822924, 528734635, 1541459225]

/-- Next word of the SHA-256 message schedule, from the last 16 words. -/
def sha256NextW (ws : List Nat) : Nat :=
  let n := ws.length
  let w15 := ws.getD (n - 15) 0
  let w2 := ws.getD (n - 2) 0
  let s0 := (rotr32 7 w15) ^^^ (rotr32 18 w15) ^^^ (w15 >>> 3)
  let s1 := (rotr32 17 w2) ^^^ (rotr32 19 w2) ^^^ (w2 >>> 10)
  add32 (add32 (ws.getD (n - 16) 0) s0) (add32 (ws.getD (n - 7) 0) s1)

/-- Extend the 16 block words by `fuel` further schedule words. -/
def sha256Schedule : Nat → List Nat → List Nat
  | 0, ws => ws
  | n + 1, ws => sha256Schedule n (ws ++ [sha256NextW ws])

/-- One SHA-256 round: absorb schedule word `w` with round constant `k`. -/
def sha256Round (st : List Nat) (wk : Nat × Nat) : List Nat :=
  match st with
  | [a, b, c, d, e, f, g, h] =>
    let s1 := (rotr32 6 e) ^^^ (rotr32 11 e) ^^^ (rotr32 25 e)
    let ch := (e &&& f) ^^^ ((e ^^^ 4294967295) &&& g)
    let t1 := add32 h (add32 s1 (add32 ch (add32 wk.2 wk.1)))
    let s0 := (rotr32 2 a) ^^^ (rotr32 13 a) ^^^ (rotr32 22 a)
    let mj := (a &&& b) ^^^ (a &&& c) ^^^ (b &&& c)
    let t2 := add32 s0 mj
    [add32 t1 t2, a, b, c, add32 d t1, e, f, g]
  | other => other

/-- Big-endian 4-byte decomposition of a 32-bit word. -/
def wordBytesBE (w : Nat) : List Nat :=
  [w / 16777216 % 256, w / 65536 % 256, w / 256 % 256, w % 256]

/-- Reassemble big-endian words from a byte stream (4 bytes per word). -/
def bytesToWordsBE : List Nat → List Nat
  | b0 :: b1 :: b2 :: b3 :: rest =>
    (((b0 * 256 + b1) * 256 + b2) * 256 + b3) :: bytesToWordsBE rest
  | _ => []

/-- SHA-256 compression of one 64-byte block into the running state. -/
def sha256Compress (st : List Nat) (block : List Nat) : List Nat :=
  let ws := sha256Schedule 48 (bytesToWordsBE block)
  let fin := (ws.zip sha256K).foldl sha256Round st
  (st.zip fin).map fun p => add32 p.1 p.2

/-- Merkle–Damgård padding: append `0x80`, zeros, and the 64-bit big-endian
bit length.  `total` is the number of message bytes absorbed overall,
including any bytes already consumed before the midstate was taken. -/
def sha256Pad (total : Nat) (msg : List Nat) : List Nat :=
  let padLen := (64 - (total + 9) % 64) % 64
  msg ++ 0x80 :: List.replicate padLen 0 ++
    wordBytesBE (total * 8 / 4294967296) ++ wordBytesBE (total * 8 % 4294967296)

/-- Compress `fuel` consecutive 64-byte blocks of `l` into the state. -/
def sha256Blocks : Nat → List Nat → List Nat → List Nat
  | 0, st, _ => st
  | n + 1, st, l => sha256Blocks n (sha256Compress st (l.take 64)) (l.drop 64)

/-- SHA-256 from an explicit state, with `offset` bytes already absorbed. -/
def sha256From (st : List Nat) (offset : Nat) (msg : List Nat) : List Nat :=
  let padded := sha256Pad (offset + msg.length) msg
  let fin := sha256Blocks (padded.length / 64) st padded
  encList wordBytesBE fin

/-- Plain (untagged) SHA-256 of a byte string. -/
def sha256 (msg : List Nat) : List Nat := sha256From sha256IV 0 msg

/-! ## Tagged commitment scheme

`ContainerId` and `MesgId` are `sha256t` tagged hashes: hashing restarts from
a constant midstate (committing the domain-separation tag) with 64 bytes
already absorbed.  The two midstate constants below are transcribed verbatim
from `container.rs` and `mesg.rs`.
-/

/-- Midstate constant of `ContainerIdTag` (`container.rs`, commented as the
midstate of the tag string "storm:container"). -/
def MIDSTATE_CONTAINER_ID : List Nat :=
  [12, 61, 136, 60, 191, 129, 135, 229, 141, 35, 41, 161, 203, 125, 0, 101,
   109, 136, 50, 236, 7, 101, 59, 39, 148, 207, 63, 236, 255, 48, 24, 171]

/-- Midstate constant of `MesgIdTag` (`mesg.rs`, commented as the midstate of
the tag string "storm:message"). -/
def MIDSTATE_MESG_ID : List Nat :=
  [12, 61, 136, 60, 191, 129, 135, 229, 141, 35, 41, 161, 203, 125, 0, 101,
   109, 136, 50, 236, 7, 101, 59, 39, 148, 207, 63, 236, 255, 48, 24, 171]

/-- Tagged SHA-256 from a 32-byte midstate (`HashEngine::from_midstate(_, 64)`). -/
def taggedSha256 (midstate : List Nat) (msg : List Nat) : List Nat :=
  sha256From (bytesToWordsBE midstate) 64 msg

/-- `ContainerId::commit` / `ContainerId::hash`: the commitment a
`ContainerId` makes over a raw byte string. -/
def containerIdCommit (msg : List Nat) : List Nat :=
  taggedSha256 MIDSTATE_CONTAINER_ID msg

/-- `MesgId::commit` / `MesgId::hash`: the commitment a `MesgId` makes over a
raw byte string. -/
def mesgIdCommit (msg : List Nat) : List Nat :=
  taggedSha256 MIDSTATE_MESG_ID msg

/-! ## Application namespace (`app.rs`) -/

def STORM_APP_SYSTEM : Nat := 0x0000

def STORM_APP_CHAT : Nat := 0x0001

def STORM_APP_FILE_TRANSFER : Nat := 0x0002

def STORM_APP_STORAGE : Nat := 0x0003

def STORM_APP_SEARCH : Nat := 0x0004

def STORM_APP_RGB_CONTRACTS : Nat := 0x0010

def STORM_APP_RGB_TRANSFERS : Nat := 0x0011

def STORM_APP_VENDOR_MASK : Nat := 0x8000

/-- Storm application identifier (`enum StormApp`). -/
inductive StormApp where
  | system
  | chat
  | fileTransfer
  | storage
  | search
  | rgbContracts
  | rgbTransfers
  | future (code : Nat)
  | vendor (code : Nat)
  deriving DecidableEq, Repr

/-- `StormApp::app_code`. -/
def StormApp.app_code : StormApp → Nat
  | .system => STORM_APP_SYSTEM
  | .chat => STORM_APP_CHAT
  | .storage => STORM_APP_STORAGE
  | .fileTransfer => STORM_APP_FILE_TRANSFER
  | .search => STORM_APP_SEARCH
  | .rgbContracts => STORM_APP_RGB_CONTRACTS
  | .rgbTransfers => STORM_APP_RGB_TRANSFERS
  | .future app => app
  | .vendor v => v

/-- `impl From<u16> for StormApp`: classify a raw 16-bit code. -/
def StormApp.from_code (code : Nat) : StormApp :=
  if code = STORM_APP_SYSTEM then .system
  else if code = STORM_APP_CHAT then .chat
  else if code = STORM_APP_STORAGE then .storage
  else if code = STORM_APP_FILE_TRANSFER then .fileTransfer
  else if code = STORM_APP_SEARCH then .search
  else if code = STORM_APP_RGB_CONTRACTS then .rgbContracts
  else if code = STORM_APP_RGB_TRANSFERS then .rgbTransfers
  else if 0 < code &&& STORM_APP_VENDOR_MASK then .vendor code
  else .future code

/-- `StrictEncode for StormApp`: the wire form is only the 16-bit app code. -/
def encStormApp (app : StormApp) : List Nat := encU16 app.app_code

/-- `StrictDecode for StormApp`: read a `u16` and re-classify it through
`From<u16>`. -/
def rdStormApp (l : List Nat) : Option (StormApp × List Nat) :=
  (rdU16 l).map fun cl => (StormApp.from_code cl.1, cl.2)

/-- A `StormApp` value as the Rust type can hold it: the payload of
`Future`/`Vendor` fits in 16 bits. -/
def StormApp.wf : StormApp → Prop
  | .future code => code < 65536
  | .vendor code => code < 65536
  | _ => True

/-- A `StormApp` value is canonical when re-classifying its own code yields
the value back; only such values survive an encode/decode round trip. -/
def StormApp.canonical (app : StormApp) : Prop :=
  StormApp.from_code app.app_code = app ∧ app.app_code < 65536

instance : DecidablePred StormApp.wf := by
  intro app; unfold StormApp.wf; cases app <;> infer_instance

instance : DecidablePred StormApp.canonical := by
  intro app; unfold StormApp.canonical; infer_instance

/-! ## Chunk model (`chunk.rs`) -/

/-- Errors of the strict-encoding layer surfaced by `MediumVec::try_from`. -/
inductive StrictError where
  | exceedMaxItems (len : Nat)
  deriving DecidableEq, Repr

/-- `MediumVec::try_from`: a vector confined to at most `2^24 - 1` elements. -/
def mediumVecTryFrom (v : List Nat) : Except StrictError (List Nat) :=
  if v.length ≤ 0xFFFFFF then .ok v else .error (.exceedMaxItems v.length)

/-- A chunk: an opaque byte string held in a `MediumVec<u8>`. -/
structure Chunk where
  bytes : List Nat
  deriving DecidableEq, Repr

/-- `impl TryFrom<Vec<u8>> for Chunk`. -/
def Chunk.tryFrom (v : List Nat) : Except StrictError Chunk :=
  (mediumVecTryFrom v).map Chunk.mk

/-- The capacity error of chunk construction (`struct TooLargeData`). -/
inductive TooLargeData where
  | tooLargeData
  deriving DecidableEq, Repr

/-- `Vec<u8>::strict_serialize`: a `u16` length prefix followed by the bytes. -/
def strictSerializeVecU8 (v : List Nat) : Except StrictError (List Nat) :=
  if v.length ≤ 0xFFFF then .ok (encU16 v.length ++ v)
  else .error (.exceedMaxItems v.length)

/-- The built-in `TryToChunk` strategy for strict-encodable values, at
`Vec<u8>`: serialize, confine to a `MediumVec`, and map any failure to
`TooLargeData`. -/
def tryToChunkVecU8 (v : List Nat) : Except TooLargeData Chunk :=
  match (strictSerializeVecU8 v).bind mediumVecTryFrom with
  | .ok m => .ok (Chunk.mk m)
  | .error _ => .error .tooLargeData

/-- Strict encoding of a chunk: `u24` length prefix plus the raw bytes. -/
def encChunk (c : Chunk) : List Nat := encU24 c.bytes.length ++ c.bytes

/-- Strict decoding of a chunk. -/
def rdChunk (l : List Nat) : Option (Chunk × List Nat) :=
  (rdU24 l).bind fun nl =>
    (rdBytes nl.1 nl.2).map fun bl => (Chunk.mk bl.1, bl.2)

/-- Wellformedness of a chunk value: byte values, and the `MediumVec` bound. -/
def Chunk.wf (c : Chunk) : Prop :=
  c.bytes.length ≤ 0xFFFFFF ∧ ∀ b ∈ c.bytes, b < 256

instance : DecidablePred Chunk.wf := by
  intro c; unfold Chunk.wf; infer_instance

/-- `Chunk::chunk_id`: the untagged SHA-256 of the chunk's strict encoding
(`commit_encode` with the `UsingStrict` strategy). -/
def Chunk.chunk_id (c : Chunk) : List Nat := sha256 (encChunk c)

/-- The chunk identifier as a function of the raw bytes alone. -/
def chunkIdOfBytes (b : List Nat) : List Nat := sha256 (encU24 b.length ++ b)

/-! ## Strings and byte vectors -/

/-- Every element is an ASCII code point (`stens::AsciiString` validation). -/
def allAscii (l : List Nat) : Bool := l.all fun c => decide (c < 128)

/-- Every element is a byte. -/
def allBytes (l : List Nat) : Bool := l.all fun c => decide (c < 256)

/-- A UTF-8 continuation byte. -/
def utf8Cont (b : Nat) : Bool := decide (0x80 ≤ b) && decide (b ≤ 0xBF)

/-- UTF-8 validity of a byte string (`String::strict_decode` re-validates the
bytes it reads); rejects overlong forms, surrogates and values above
`U+10FFFF`, as Rust's `String::from_utf8` does. -/
def isUtf8 : List Nat → Bool
  | [] => true
  | c :: rest =>
    if c ≤ 0x7F then isUtf8 rest
    else if 0xC2 ≤ c ∧ c ≤ 0xDF then
      match rest with
      | c1 :: r => utf8Cont c1 && isUtf8 r
      | [] => false
    else if c = 0xE0 then
      match rest with
      | c1 :: c2 :: r =>
        decide (0xA0 ≤ c1) && decide (c1 ≤ 0xBF) && utf8Cont c2 && isUtf8 r
      | _ => false
    else if (0xE1 ≤ c ∧ c ≤ 0xEC) ∨ c = 0xEE ∨ c = 0xEF then
      match rest with
      | c1 :: c2 :: r => utf8Cont c1 && utf8Cont c2 && isUtf8 r
      | _ => false
    else if c = 0xED then
      match rest with
      | c1 :: c2 :: r =>
        decide (0x80 ≤ c1) && decide (c1 ≤ 0x9F) && utf8Cont c2 && isUtf8 r
      | _ => false
    else if c = 0xF0 then
      match rest with
      | c1 :: c2 :: c3 :: r =>
        decide (0x90 ≤ c1) && decide (c1 ≤ 0xBF) && utf8Cont c2 && utf8Cont c3 &&
          isUtf8 r
      | _ => false
    else if 0xF1 ≤ c ∧ c ≤ 0xF3 then
      match rest with
      | c1 :: c2 :: c3 :: r =>
        utf8Cont c1 && utf8Cont c2 && utf8Cont c3 && isUtf8 r
      | _ => false
    else if c = 0xF4 then
      match rest with
      | c1 :: c2 :: c3 :: r =>
        decide (0x80 ≤ c1) && decide (c1 ≤ 0x8F) && utf8Cont c2 && utf8Cont c3 &&
          isUtf8 r
      | _ => false
    else false

/-- Length-prefixed encoding shared by `Vec<u8>`, `String` and `AsciiString`:
a `u16` length followed by the raw bytes. -/
def encBytes16 (b : List Nat) : List Nat := encU16 b.length ++ b

/-- Strict decoding of a `Vec<u8>`. -/
def rdVecU8 (l : List Nat) : Option (List Nat × List Nat) :=
  (rdU16 l).bind fun nl => rdBytes nl.1 nl.2

/-- Strict decoding of an `AsciiString` (validates the code points). -/
def rdAsciiString (l : List Nat) : Option (List Nat × List Nat) :=
  (rdU16 l).bind fun nl =>
    (rdBytes nl.1 nl.2).bind fun bl =>
      if allAscii bl.1 then some bl else none

/-- Strict decoding of a `String` (validates UTF-8). -/
def rdString (l : List Nat) : Option (List Nat × List Nat) :=
  (rdU16 l).bind fun nl =>
    (rdBytes nl.1 nl.2).bind fun bl =>
      if isUtf8 bl.1 then some bl else none

/-! ## 32-byte identifiers

`ChunkId`, `ContainerId` and `MesgId` are all 32-byte SHA-256 digests and
strict-encode as their raw bytes. -/

/-- Wellformedness of a 32-byte identifier. -/
def hash32wf (h : List Nat) : Prop := h.length = 32 ∧ ∀ b ∈ h, b < 256

instance : DecidablePred hash32wf := by
  intro h; unfold hash32wf; infer_instance

/-- Strict decoding of a 32-byte identifier. -/
def rdHash32 (l : List Nat) : Option (List Nat × List Nat) := rdBytes 32 l

/-! ## Ordered sets (`BTreeSet`)

`BTreeSet<T>` strict-encodes as a `u16` element count followed by the
elements in ascending `Ord` order, and decodes by inserting each element
into a fresh tree.  We model a tree as its strictly ascending element list;
insertion keeps the list ordered.  For 32-byte identifiers the derived Rust
order (lexicographic on the byte array) coincides with the numeric value of
the digits in base 256, and the derived order on `StormApp` is the variant
order with the 16-bit payload breaking ties. -/

/-- The base-256 value of a byte string; on equal-length strings its order is
exactly the lexicographic byte order derived by Rust. -/
def hashKey (h : List Nat) : Nat := h.foldl (fun a b => a * 256 + b) 0

/-- Discriminant of a `StormApp` variant in declaration order. -/
def appIdx : StormApp → Nat
  | .system => 0
  | .chat => 1
  | .fileTransfer => 2
  | .storage => 3
  | .search => 4
  | .rgbContracts => 5
  | .rgbTransfers => 6
  | .future _ => 7
  | .vendor _ => 8

/-- Order key matching the derived `Ord` on `StormApp` for 16-bit payloads:
variant order first, payload second. -/
def appKey (a : StormApp) : Nat :=
  appIdx a * 65536 + (match a with
    | .future code => code
    | .vendor code => code
    | _ => 0)

/-- `BTreeSet::insert` on the sorted-list model of the tree. -/
def sortedInsert (key : α → Nat) : List α → α → List α
  | [], x => [x]
  | a :: rest, x =>
    if key x < key a then x :: a :: rest
    else if key x = key a then a :: rest
    else a :: sortedInsert key rest x

/-- Rebuild a `BTreeSet` from decoded elements, in decode order. -/
def setOfList (key : α → Nat) (l : List α) : List α :=
  l.foldl (sortedInsert key) []

/-- A set's sorted-list model is strictly ascending in the order key. -/
def setWf (key : α → Nat) (l : List α) : Prop :=
  List.Pairwise (fun a b => key a < key b) l

/-- Encoding of a `BTreeSet`: `u16` count, then the ascending elements. -/
def encSet (enc : α → List Nat) (l : List α) : List Nat :=
  encU16 l.length ++ encList enc l

/-- Decoding of a `BTreeSet`: read the count and the elements, then insert
them one by one into a fresh tree. -/
def rdSet (key : α → Nat) (rd : List Nat → Option (α × List Nat))
    (l : List Nat) : Option (List α × List Nat) :=
  (rdU16 l).bind fun nl =>
    (rdList rd nl.1 nl.2).map fun sl => (setOfList key sl.1, sl.2)

/-! ## Container model (`container.rs`) -/

/-- `struct Container`: version, MIME type, description, declared size, and
the manifest of chunk identifiers (a `MediumVec<ChunkId>`). -/
structure Container where
  version : Nat
  mime : List Nat
  info : List Nat
  size : Nat
  chunks : List (List Nat)
  deriving DecidableEq, Repr

/-- A `Container` value as the Rust data model can hold and transport it:
field widths, string validity, and the `MediumVec` bound on the manifest. -/
def Container.wf (c : Container) : Prop :=
  c.version < 65536 ∧
  (c.mime.length < 65536 ∧ allAscii c.mime = true) ∧
  (c.info.length < 65536 ∧ isUtf8 c.info = true) ∧
  c.size < 18446744073709551616 ∧
  (c.chunks.length ≤ 0xFFFFFF ∧ ∀ h ∈ c.chunks, hash32wf h)

instance : DecidablePred Container.wf := by
  intro c; unfold Container.wf; infer_instance

/-- Strict encoding of a `Container`, fields in declaration order. -/
def encContainer (c : Container) : List Nat :=
  encU16 c.version ++ encBytes16 c.mime ++ encBytes16 c.info ++
    encU64 c.size ++ encU24 c.chunks.length ++ encList id c.chunks

/-- Strict decoding of a `Container`. -/
def rdContainer (l : List Nat) : Option (Container × List Nat) :=
  (rdU16 l).bind fun vl =>
    (rdAsciiString vl.2).bind fun ml =>
      (rdString ml.2).bind fun il =>
        (rdU64 il.2).bind fun sl =>
          (rdU24 sl.2).bind fun nl =>
            (rdList rdHash32 nl.1 nl.2).map fun cl =>
              (Container.mk vl.1 ml.1 il.1 sl.1 cl.1, cl.2)

/-- `Container::container_id`: the tagged commitment to the container's
strict encoding (`consensus_commit` with the `UsingStrict` strategy). -/
def Container.container_id (c : Container) : List Nat :=
  containerIdCommit (encContainer c)

/-! ## Message model (`mesg.rs`) -/

/-- `struct Topic`: a thread root with opaque body and container
attachments. -/
structure Topic where
  body : List Nat
  container_ids : List (List Nat)
  deriving DecidableEq, Repr

def Topic.wf (t : Topic) : Prop :=
  (t.body.length < 65536 ∧ ∀ b ∈ t.body, b < 256) ∧
  (t.container_ids.length < 65536 ∧ ∀ h ∈ t.container_ids, hash32wf h)

instance : DecidablePred Topic.wf := by
  intro t; unfold Topic.wf; infer_instance

/-- Strict encoding of a `Topic`. -/
def encTopic (t : Topic) : List Nat :=
  encBytes16 t.body ++ encU16 t.container_ids.length ++
    encList id t.container_ids

/-- Strict decoding of a `Topic`. -/
def rdTopic (l : List Nat) : Option (Topic × List Nat) :=
  (rdVecU8 l).bind fun bl =>
    (rdU16 bl.2).bind fun nl =>
      (rdList rdHash32 nl.1 nl.2).map fun cl =>
        (Topic.mk bl.1 cl.1, cl.2)

/-- `Topic::mesg_id`: tagged commitment to the topic's strict encoding. -/
def Topic.mesg_id (t : Topic) : List Nat := mesgIdCommit (encTopic t)

/-- `struct Mesg`: a reply message with parent link, opaque body and
container attachments. -/
structure Mesg where
  parent_id : List Nat
  body : List Nat
  container_ids : List (List Nat)
  deriving DecidableEq, Repr

def Mesg.wf (m : Mesg) : Prop :=
  hash32wf m.parent_id ∧
  (m.body.length < 65536 ∧ ∀ b ∈ m.body, b < 256) ∧
  (m.container_ids.length < 65536 ∧ ∀ h ∈ m.container_ids, hash32wf h)

instance : DecidablePred Mesg.wf := by
  intro m; unfold Mesg.wf; infer_instance

/-- Strict encoding of a `Mesg`. -/
def encMesg (m : Mesg) : List Nat :=
  m.parent_id ++ encBytes16 m.body ++ encU16 m.container_ids.length ++
    encList id m.container_ids

/-- Strict decoding of a `Mesg`. -/
def rdMesg (l : List Nat) : Option (Mesg × List Nat) :=
  (rdHash32 l).bind fun pl =>
    (rdVecU8 pl.2).bind fun bl =>
      (rdU16 bl.2).bind fun nl =>
        (rdList rdHash32 nl.1 nl.2).map fun cl =>
          (Mesg.mk pl.1 bl.1 cl.1, cl.2)

/-- `Mesg::mesg_id`: tagged commitment to the message's strict encoding. -/
def Mesg.mesg_id (m : Mesg) : List Nat := mesgIdCommit (encMesg m)

/-! ## Compound identifiers -/

/-- `struct ChunkFullId` (`chunk.rs`): a chunk addressed within a container. -/
structure ChunkFullId where
  container_id : List Nat
  chunk_id : List Nat
  deriving DecidableEq, Repr

def ChunkFullId.wf (x : ChunkFullId) : Prop :=
  hash32wf x.container_id ∧ hash32wf x.chunk_id

instance : DecidablePred ChunkFullId.wf := by
  intro x; unfold ChunkFullId.wf; infer_instance

def encChunkFullId (x : ChunkFullId) : List Nat :=
  x.container_id ++ x.chunk_id

def rdChunkFullId (l : List Nat) : Option (ChunkFullId × List Nat) :=
  (rdHash32 l).bind fun al =>
    (rdHash32 al.2).map fun bl => (ChunkFullId.mk al.1 bl.1, bl.2)

/-- `struct ContainerFullId` (`container.rs`): a container together with the
message that grants access to it. -/
structure ContainerFullId where
  message_id : List Nat
  container_id : List Nat
  deriving DecidableEq, Repr

def ContainerFullId.wf (x : ContainerFullId) : Prop :=
  hash32wf x.message_id ∧ hash32wf x.container_id

instance : DecidablePred ContainerFullId.wf := by
  intro x; unfold ContainerFullId.wf; infer_instance

def encContainerFullId (x : ContainerFullId) : List Nat :=
  x.message_id ++ x.container_id

def rdContainerFullId (l : List Nat) : Option (ContainerFullId × List Nat) :=
  (rdHash32 l).bind fun al =>
    (rdHash32 al.2).map fun bl => (ContainerFullId.mk al.1 bl.1, bl.2)

/-! ## P2P protocol payloads (`p2p.rs`) -/

/-- `struct TopicList`: response payload of topic listing. -/
structure TopicList where
  app : StormApp
  topics : List (List Nat)
  deriving DecidableEq, Repr

def TopicList.wf (x : TopicList) : Prop :=
  x.app.canonical ∧ x.topics.length < 65536 ∧ setWf hashKey x.topics ∧
    ∀ h ∈ x.topics, hash32wf h

instance : DecidablePred (setWf (α := α) key) := by
  intro l; unfold setWf; infer_instance

instance : DecidablePred TopicList.wf := by
  intro x; unfold TopicList.wf; infer_instance

def encTopicList (x : TopicList) : List Nat :=
  encStormApp x.app ++ encSet id x.topics

def rdTopicList (l : List Nat) : Option (TopicList × List Nat) :=
  (rdStormApp l).bind fun al =>
    (rdSet hashKey rdHash32 al.2).map fun tl => (TopicList.mk al.1 tl.1, tl.2)

/-- `struct PostReq`: post a message under an app. -/
structure PostReq where
  app : StormApp
  message : Mesg
  deriving DecidableEq, Repr

def PostReq.wf (x : PostReq) : Prop := x.app.canonical ∧ x.message.wf

instance : DecidablePred PostReq.wf := by
  intro x; unfold PostReq.wf; infer_instance

def encPostReq (x : PostReq) : List Nat :=
  encStormApp x.app ++ encMesg x.message

def rdPostReq (l : List Nat) : Option (PostReq × List Nat) :=
  (rdStormApp l).bind fun al =>
    (rdMesg al.2).map fun ml => (PostReq.mk al.1 ml.1, ml.2)

/-- `struct MesgReq`: address a message under an app. -/
structure MesgReq where
  app : StormApp
  message_id : List Nat
  deriving DecidableEq, Repr

def MesgReq.wf (x : MesgReq) : Prop := x.app.canonical ∧ hash32wf x.message_id

instance : DecidablePred MesgReq.wf := by
  intro x; unfold MesgReq.wf; infer_instance

def encMesgReq (x : MesgReq) : List Nat :=
  encStormApp x.app ++ x.message_id

def rdMesgReq (l : List Nat) : Option (MesgReq × List Nat) :=
  (rdStormApp l).bind fun al =>
    (rdHash32 al.2).map fun ml => (MesgReq.mk al.1 ml.1, ml.2)

/-- `struct ContainerPull`: request a container, with access context. -/
structure ContainerPull where
  app : StormApp
  message_id : List Nat
  container_id : List Nat
  deriving DecidableEq, Repr

def ContainerPull.wf (x : ContainerPull) : Prop :=
  x.app.canonical ∧ hash32wf x.message_id ∧ hash32wf x.container_id

instance : DecidablePred ContainerPull.wf := by
  intro x; unfold ContainerPull.wf; infer_instance

def encContainerPull (x : ContainerPull) : List Nat :=
  encStormApp x.app ++ x.message_id ++ x.container_id

def rdContainerPull (l : List Nat) : Option (ContainerPull × List Nat) :=
  (rdStormApp l).bind fun al =>
    (rdHash32 al.2).bind fun ml =>
      (rdHash32 ml.2).map fun cl => (ContainerPull.mk al.1 ml.1 cl.1, cl.2)

/-- `struct ContainerPush`: provide a container's manifest. -/
structure ContainerPush where
  app : StormApp
  container_id : List Nat
  container : Container
  deriving DecidableEq, Repr

def ContainerPush.wf (x : ContainerPush) : Prop :=
  x.app.canonical ∧ hash32wf x.container_id ∧ x.container.wf

instance : DecidablePred ContainerPush.wf := by
  intro x; unfold ContainerPush.wf; infer_instance

def encContainerPush (x : ContainerPush) : List Nat :=
  encStormApp x.app ++ x.container_id ++ encContainer x.container

def rdContainerPush (l : List Nat) : Option (ContainerPush × List Nat) :=
  (rdStormApp l).bind fun al =>
    (rdHash32 al.2).bind fun il =>
      (rdContainer il.2).map fun cl => (ContainerPush.mk al.1 il.1 cl.1, cl.2)

/-- `struct ChunkPull`: request chunks of a container. -/
structure ChunkPull where
  app : StormApp
  message_id : List Nat
  container_id : List Nat
  chunk_ids : List (List Nat)
  deriving DecidableEq, Repr

def ChunkPull.wf (x : ChunkPull) : Prop :=
  x.app.canonical ∧ hash32wf x.message_id ∧ hash32wf x.container_id ∧
    x.chunk_ids.length < 65536 ∧ setWf hashKey x.chunk_ids ∧
    ∀ h ∈ x.chunk_ids, hash32wf h

instance : DecidablePred ChunkPull.wf := by
  intro x; unfold ChunkPull.wf; infer_instance

def encChunkPull (x : ChunkPull) : List Nat :=
  encStormApp x.app ++ x.message_id ++ x.container_id ++ encSet id x.chunk_ids

def rdChunkPull (l : List Nat) : Option (ChunkPull × List Nat) :=
  (rdStormApp l).bind fun al =>
    (rdHash32 al.2).bind fun ml =>
      (rdHash32 ml.2).bind fun il =>
        (rdSet hashKey rdHash32 il.2).map fun sl =>
          (ChunkPull.mk al.1 ml.1 il.1 sl.1, sl.2)

/-- `struct ChunkPush`: provide one chunk's bytes. -/
structure ChunkPush where
  app : StormApp
  container_id : List Nat
  chunk_id : List Nat
  chunk : Chunk
  deriving DecidableEq, Repr

def ChunkPush.wf (x : ChunkPush) : Prop :=
  x.app.canonical ∧ hash32wf x.container_id ∧ hash32wf x.chunk_id ∧ x.chunk.wf

instance : DecidablePred ChunkPush.wf := by
  intro x; unfold ChunkPush.wf; infer_instance

def encChunkPush (x : ChunkPush) : List Nat :=
  encStormApp x.app ++ x.container_id ++ x.chunk_id ++ encChunk x.chunk

def rdChunkPush (l : List Nat) : Option (ChunkPush × List Nat) :=
  (rdStormApp l).bind fun al =>
    (rdHash32 al.2).bind fun il =>
      (rdHash32 il.2).bind fun cl =>
        (rdChunk cl.2).map fun kl => (ChunkPush.mk al.1 il.1 cl.1 kl.1, kl.2)

/-! ## P2P protocol message set (`enum Messages`) -/

/-- The wire message set of the protocol, one constructor per variant. -/
inductive Messages where
  | listApps
  | activeApps (apps : List StormApp)
  | listTopics (app : StormApp)
  | appTopics (msg : TopicList)
  | proposeTopic (msg : Topic)
  | post (msg : PostReq)
  | read (msg : MesgReq)
  | decline (msg : MesgReq)
  | accept (msg : MesgReq)
  | pullContainer (msg : ContainerPull)
  | pushContainer (msg : ContainerPush)
  | reject (msg : ContainerPull)
  | pullChunk (msg : ChunkPull)
  | pushChunk (msg : ChunkPush)
  deriving DecidableEq, Repr

/-- The `#[api(type = ...)]` numeric code of each variant. -/
def Messages.typeCode : Messages → Nat
  | .listApps => 0x0002
  | .activeApps _ => 0x0003
  | .listTopics _ => 0x0004
  | .appTopics _ => 0x0005
  | .proposeTopic _ => 0x0006
  | .post _ => 0x0008
  | .read _ => 0x000a
  | .decline _ => 0x000c
  | .accept _ => 0x000e
  | .pullContainer _ => 0x0010
  | .pushContainer _ => 0x0011
  | .reject _ => 0x0012
  | .pullChunk _ => 0x0014
  | .pushChunk _ => 0x0015

/-- Constructor discriminant, used to state that distinct variants never
share a type code. -/
def Messages.variantIdx : Messages → Nat
  | .listApps => 0
  | .activeApps _ => 1
  | .listTopics _ => 2
  | .appTopics _ => 3
  | .proposeTopic _ => 4
  | .post _ => 5
  | .read _ => 6
  | .decline _ => 7
  | .accept _ => 8
  | .pullContainer _ => 9
  | .pushContainer _ => 10
  | .reject _ => 11
  | .pullChunk _ => 12
  | .pushChunk _ => 13

/-- Encoding of a variant's fields (without the leading type code). -/
def Messages.encFields : Messages → List Nat
  | .listApps => []
  | .activeApps apps => encSet encStormApp apps
  | .listTopics app => encStormApp app
  | .appTopics msg => encTopicList msg
  | .proposeTopic msg => encTopic msg
  | .post msg => encPostReq msg
  | .read msg => encMesgReq msg
  | .decline msg => encMesgReq msg
  | .accept msg => encMesgReq msg
  | .pullContainer msg => encContainerPull msg
  | .pushContainer msg => encContainerPush msg
  | .reject msg => encContainerPull msg
  | .pullChunk msg => encChunkPull msg
  | .pushChunk msg => encChunkPush msg

/-- Wire encoding of a protocol message: the 2-byte type code followed by
the variant's field encoding. -/
def encMessages (m : Messages) : List Nat :=
  encU16 m.typeCode ++ m.encFields

/-- Wire decoding of a protocol message: read the 2-byte type code and
dispatch on the closed code table. -/
def rdMessages (l : List Nat) : Option (Messages × List Nat) :=
  (rdU16 l).bind fun cl =>
    if cl.1 = 0x0002 then some (.listApps, cl.2)
    else if cl.1 = 0x0003 then
      (rdSet appKey rdStormApp cl.2).map fun al => (.activeApps al.1, al.2)
    else if cl.1 = 0x0004 then
      (rdStormApp cl.2).map fun al => (.listTopics al.1, al.2)
    else if cl.1 = 0x0005 then
      (rdTopicList cl.2).map fun xl => (.appTopics xl.1, xl.2)
    else if cl.1 = 0x0006 then
      (rdTopic cl.2).map fun xl => (.proposeTopic xl.1, xl.2)
    else if cl.1 = 0x0008 then
      (rdPostReq cl.2).map fun xl => (.post xl.1, xl.2)
    else if cl.1 = 0x000a then
      (rdMesgReq cl.2).map fun xl => (.read xl.1, xl.2)
    else if cl.1 = 0x000c then
      (rdMesgReq cl.2).map fun xl => (.decline xl.1, xl.2)
    else if cl.1 = 0x000e then
      (rdMesgReq cl.2).map fun xl => (.accept xl.1, xl.2)
    else if cl.1 = 0x0010 then
      (rdContainerPull cl.2).map fun xl => (.pullContainer xl.1, xl.2)
    else if cl.1 = 0x0011 then
      (rdContainerPush cl.2).map fun xl => (.pushContainer xl.1, xl.2)
    else if cl.1 = 0x0012 then
      (rdContainerPull cl.2).map fun xl => (.reject xl.1, xl.2)
    else if cl.1 = 0x0014 then
      (rdChunkPull cl.2).map fun xl => (.pullChunk xl.1, xl.2)
    else if cl.1 = 0x0015 then
      (rdChunkPush cl.2).map fun xl => (.pushChunk xl.1, xl.2)
    else none

/-- Wellformedness of a wire message: the payload is wellformed and every
embedded `StormApp` is canonical. -/
def Messages.wf : Messages → Prop
  | .listApps => True
  | .activeApps apps =>
    apps.length < 65536 ∧ setWf appKey apps ∧ ∀ a ∈ apps, a.canonical
  | .listTopics app => app.canonical
  | .appTopics msg => msg.wf
  | .proposeTopic msg => msg.wf
  | .post msg => msg.wf
  | .read msg => msg.wf
  | .decline msg => msg.wf
  | .accept msg => msg.wf
  | .pullContainer msg => msg.wf
  | .pushContainer msg => msg.wf
  | .reject msg => msg.wf
  | .pullChunk msg => msg.wf
  | .pushChunk msg => msg.wf

instance : DecidablePred Messages.wf := by
  intro m; cases m <;> simp only [Messages.wf] <;> infer_instance

/-! ## Application routing (`StormMesg`) -/

/-- Modelled from the spec: the sources contain the caller
`Messages::ProposeTopic(msg) => msg.storm_app()` but no
`impl StormMesg for Topic`; the `Topic` record itself (`mesg.rs`) has no
`StormApp` field, so a proposal's originating app is not recoverable from
its payload and we model it as the system app, the value used for the other
app-less variants. -/
def Topic.storm_app (_ : Topic) : StormApp := .system

/-- `impl StormMesg for Messages`: route a wire message to its app. -/
def Messages.storm_app : Messages → StormApp
  | .listApps => .system
  | .activeApps _ => .system
  | .listTopics app => app
  | .appTopics msg => msg.app
  | .proposeTopic msg => msg.storm_app
  | .accept msg => msg.app
  | .pullContainer msg => msg.app
  | .pushContainer msg => msg.app
  | .post msg => msg.app
  | .read msg => msg.app
  | .pushChunk msg => msg.app
  | .pullChunk msg => msg.app
  | .decline msg => msg.app
  | .reject msg => msg.app

/-- The explicit `StormApp`-typed field of a variant's payload, where the
payload declares one (`p2p.rs` struct definitions). -/
def Messages.explicitAppField : Messages → Option StormApp
  | .listApps => none
  | .activeApps _ => none
  | .listTopics app => some app
  | .appTopics msg => some msg.app
  | .proposeTopic _ => none
  | .post msg => some msg.app
  | .read msg => some msg.app
  | .decline msg => some msg.app
  | .accept msg => some msg.app
  | .pullContainer msg => some msg.app
  | .pushContainer msg => some msg.app
  | .reject msg => some msg.app
  | .pullChunk msg => some msg.app
  | .pushChunk msg => some msg.app

/-- The discovery pair of the protocol. -/
def Messages.isDiscovery : Messages → Bool
  | .listApps => true
  | .activeApps _ => true
  | _ => false

/-- The topic-proposal variant. -/
def Messages.isProposeTopic : Messages → Bool
  | .proposeTopic _ => true
  | _ => false

/-! ## Bech32 string encoding of `ContainerId`

Modelled from the spec: `impl FromStr for ContainerId` and the
`lnpbp_bech32::Strategy` impl (HRP `"storm"`, strict-encoding data strategy)
are in `container.rs`, but the `lnpbp_bech32` machinery itself is an
external crate not among the source files.  The spec describes it as "a
bech32-style string encoding with human-readable part `storm`" whose
decoder "must validate the HRP and checksum and reject otherwise", so we
model standard bech32: HRP, `'1'` separator, 5-bit data re-grouping, the
32-character data alphabet, and a 6-symbol checksum over the
BCH-polymod of the expanded HRP and data, which the decoder recomputes and
compares. -/

/-- The bech32 data-part alphabet. -/
def bech32Charset : List Char :=
  ['q', 'p', 'z', 'r', 'y', '9', 'x', '8', 'g', 'f', '2', 't', 'v', 'd',
   'b', '0', 's', '3', 'n', '5', 'h', 'j', 'l', 'u', 'm', 'w', 'a', 'e',
   'c', '4', 'k', '7']

/-- Character for a 5-bit value. -/
def charsetChar (v : Nat) : Char := bech32Charset.getD v 'q'

/-- 5-bit value of a data-part character, if it belongs to the alphabet. -/
def charsetIdx (c : Char) : Option Nat := bech32Charset.indexOf? c

/-- Map every data-part character back to its 5-bit value. -/
def mapCharset : List Char → Option (List Nat)
  | [] => some []
  | c :: r => (charsetIdx c).bind fun v => (mapCharset r).map fun vs => v :: vs

/-- The big-endian bits of a byte. -/
def byteToBits (b : Nat) : List Nat :=
  [b / 128 % 2, b / 64 % 2, b / 32 % 2, b / 16 % 2,
   b / 8 % 2, b / 4 % 2, b / 2 % 2, b % 2]

/-- The big-endian bits of a 5-bit group. -/
def fiveToBits (v : Nat) : List Nat :=
  [v / 16 % 2, v / 8 % 2, v / 4 % 2, v / 2 % 2, v % 2]

/-- Regroup a bit stream into 5-bit values (the stream length must be a
multiple of five; stray trailing bits are dropped). -/
def bitsToGroups : List Nat → List Nat
  | b0 :: b1 :: b2 :: b3 :: b4 :: r =>
    (b0 * 16 + b1 * 8 + b2 * 4 + b3 * 2 + b4) :: bitsToGroups r
  | _ => []

/-- Regroup a bit stream into bytes (the stream length must be a multiple of
eight; stray trailing bits are dropped). -/
def bitsToBytes : List Nat → List Nat
  | b0 :: b1 :: b2 :: b3 :: b4 :: b5 :: b6 :: b7 :: r =>
    (b0 * 128 + b1 * 64 + b2 * 32 + b3 * 16 + b4 * 8 + b5 * 4 + b6 * 2 + b7) ::
      bitsToBytes r
  | _ => []

/-- 8-bit to 5-bit regrouping with zero padding (`convert_bits 8 5 true`). -/
def toBase32 (bytes : List Nat) : List Nat :=
  let bits := encList byteToBits bytes
  bitsToGroups (bits ++ List.replicate ((5 - bits.length % 5) % 5) 0)

/-- 5-bit to 8-bit regrouping (`convert_bits 5 8 false`): fails when the
trailing bits could hold data or are non-zero. -/
def fromBase32 (vals : List Nat) : Option (List Nat) :=
  let bits := encList fiveToBits vals
  let n := bits.length / 8
  let rest := bits.drop (n * 8)
  if rest.length < 5 ∧ rest.all (fun b => decide (b = 0)) then
    some (bitsToBytes (bits.take (n * 8)))
  else none

/-- The bech32 checksum generator constants. -/
def bech32Gen : List Nat :=
  [996825010, 642813549, 513874426, 1027748829, 705979059]

/-- One step of the bech32 BCH polymod. -/
def polymodStep (chk v : Nat) : Nat :=
  let b := chk >>> 25
  (List.range 5).foldl
    (fun c i => if (b >>> i) &&& 1 = 1 then c ^^^ bech32Gen.getD i 0 else c)
    (((chk &&& 0x1ffffff) <<< 5) ^^^ v)

/-- The bech32 BCH polymod of a 5-bit value stream. -/
def polymod (vals : List Nat) : Nat := vals.foldl polymodStep 1

/-- The HRP as interleaved high and low 5-bit parts. -/
def hrpExpand (hrp : List Char) : List Nat :=
  hrp.map (fun c => c.toNat / 32) ++ 0 :: hrp.map (fun c => c.toNat % 32)

/-- The 6-symbol bech32 checksum of an HRP and data part. -/
def createChecksum (hrp : List Char) (data : List Nat) : List Nat :=
  let pm := polymod (hrpExpand hrp ++ data ++ [0, 0, 0, 0, 0, 0]) ^^^ 1
  [pm >>> 25 &&& 31, pm >>> 20 &&& 31, pm >>> 15 &&& 31,
   pm >>> 10 &&& 31, pm >>> 5 &&& 31, pm &&& 31]

/-- Assemble a bech32 string: HRP, separator, data and checksum. -/
def bech32Assemble (hrp : List Char) (data5 : List Nat) : List Char :=
  hrp ++ '1' :: (data5 ++ createChecksum hrp data5).map charsetChar

/-- The human-readable part of `ContainerId` strings. -/
def stormHrp : List Char := ['s', 't', 'o', 'r', 'm']

/-- `ContainerId::to_bech32_string`: bech32 over the 32 strict-encoded
bytes of the identifier. -/
def containerIdToBech32 (id : List Nat) : List Char :=
  bech32Assemble stormHrp (toBase32 id)

/-- Split a candidate bech32 string at its last separator `'1'`. -/
def splitLastSep : List Char → Option (List Char × List Char)
  | [] => none
  | c :: rest =>
    match splitLastSep rest with
    | some hd => some (c :: hd.1, hd.2)
    | none => if c = '1' then some ([], rest) else none

/-- Decoding failures of the bech32 layer and the HRP check. -/
inductive Bech32Error where
  | badFormat
  | badLength
  | badChar
  | badChecksum
  | wrongHrp
  | badPadding
  deriving DecidableEq, Repr

/-- Parse and validate a bech32 string into its HRP and 5-bit payload:
split at the separator, map the alphabet, recompute and compare the
checksum. -/
def bech32Parse (s : List Char) :
    Except Bech32Error (List Char × List Nat) :=
  match splitLastSep s with
  | none => .error .badFormat
  | some (hrp, dataPart) =>
    if dataPart.length < 6 then .error .badLength
    else
      match mapCharset dataPart with
      | none => .error .badChar
      | some vals =>
        let payload := vals.take (vals.length - 6)
        let chk := vals.drop (vals.length - 6)
        if chk = createChecksum hrp payload then .ok (hrp, payload)
        else .error .badChecksum

/-- `impl FromStr for ContainerId` / `from_bech32_str`: parse the bech32
string, demand the `storm` HRP, regroup the payload to bytes and demand a
32-byte identifier. -/
def containerIdFromStr (s : List Char) : Except Bech32Error (List Nat) :=
  match bech32Parse s with
  | .error e => .error e
  | .ok (hrp, payload) =>
    if hrp = stormHrp then
      match fromBase32 payload with
      | some bytes =>
        if bytes.length = 32 then .ok bytes else .error .badLength
      | none => .error .badPadding
    else .error .wrongHrp

/-- A container whose manifest holds `2^19 + 1` chunk references; the data
model accepts it. -/
def bigManifestContainer : Container :=
  Container.mk 0 [] [] 0 (List.replicate 524289 (List.replicate 32 0))

/-! ## Theorems -/

theorem rdU16_enc {n : Nat} (h : n < 65536) (r : List Nat) :
    rdU16 (encU16 n ++ r) = some (n, r) := by
  simp only [encU16, rdU16, List.cons_append, List.nil_append, Option.some.injEq,
    Prod.mk.injEq, and_true]
  omega

theorem rdU24_enc {n : Nat} (h : n < 16777216) (r : List Nat) :
    rdU24 (encU24 n ++ r) = some (n, r) := by
  simp only [encU24, rdU24, List.cons_append, List.nil_append, Option.some.injEq,
    Prod.mk.injEq, and_true]
  omega

theorem rdU64_enc {n : Nat} (h : n < 18446744073709551616) (r : List Nat) :
    rdU64 (encU64 n ++ r) = some (n, r) := by
  simp only [encU64, rdU64, List.cons_append, List.nil_append, Option.some.injEq,
    Prod.mk.injEq, and_true]
  omega

theorem rdBytes_append {b : List Nat} (r : List Nat) :
    rdBytes b.length (b ++ r) = some (b, r) := by
  simp [rdBytes, List.take_left, List.drop_left]

theorem rdBytes_enc {b : List Nat} {n : Nat} (h : b.length = n) (r : List Nat) :
    rdBytes n (b ++ r) = some (b, r) := by
  subst h; exact rdBytes_append r

theorem rdList_enc {enc : α → List Nat} {rd : List Nat → Option (α × List Nat)}
    {xs : List α}
    (h : ∀ x ∈ xs, ∀ r, rd (enc x ++ r) = some (x, r)) (r : List Nat) :
    rdList rd xs.length (encList enc xs ++ r) = some (xs, r) := by
  induction xs with
  | nil => simp [rdList, encList]
  | cons x xs ih =>
    have hx := h x (List.mem_cons_self x xs) (encList enc xs ++ r)
    simp only [encList, List.append_assoc, List.length_cons, rdList, hx,
      Option.bind_some, Option.some_bind,
      ih (fun y hy => h y (List.mem_cons_of_mem x hy)), Option.map_some']

theorem app_code_lt_of_canonical {app : StormApp} (h : app.canonical) :
    app.app_code < 65536 := h.2

theorem rdStormApp_enc {app : StormApp} (h : app.canonical) (r : List Nat) :
    rdStormApp (encStormApp app ++ r) = some (app, r) := by
  simp [rdStormApp, encStormApp, rdU16_enc h.2, h.1]

theorem rdChunk_enc {c : Chunk} (h : c.wf) (r : List Nat) :
    rdChunk (encChunk c ++ r) = some (c, r) := by
  have hlen : c.bytes.length < 16777216 := by
    have := h.1; omega
  simp [rdChunk, encChunk, List.append_assoc, rdU24_enc hlen, rdBytes_append]

theorem rdVecU8_enc {b : List Nat} (h : b.length < 65536) (r : List Nat) :
    rdVecU8 (encBytes16 b ++ r) = some (b, r) := by
  simp [rdVecU8, encBytes16, List.append_assoc, rdU16_enc h, rdBytes_append]

theorem rdAsciiString_enc {b : List Nat} (h : b.length < 65536)
    (ha : allAscii b = true) (r : List Nat) :
    rdAsciiString (encBytes16 b ++ r) = some (b, r) := by
  simp [rdAsciiString, encBytes16, List.append_assoc, rdU16_enc h,
    rdBytes_append, ha]

theorem rdString_enc {b : List Nat} (h : b.length < 65536)
    (hu : isUtf8 b = true) (r : List Nat) :
    rdString (encBytes16 b ++ r) = some (b, r) := by
  simp [rdString, encBytes16, List.append_assoc, rdU16_enc h,
    rdBytes_append, hu]

theorem rdHash32_enc {x : List Nat} (h : hash32wf x) (r : List Nat) :
    rdHash32 (x ++ r) = some (x, r) := rdBytes_enc h.1 r

theorem sortedInsert_append {key : α → Nat} {acc : List α} {x : α}
    (h : ∀ y ∈ acc, key y < key x) :
    sortedInsert key acc x = acc ++ [x] := by
  induction acc with
  | nil => rfl
  | cons a rest ih =>
    have ha := h a (List.mem_cons_self a rest)
    have h1 : ¬ key x < key a := by omega
    have h2 : ¬ key x = key a := by omega
    simp only [sortedInsert, if_neg h1, if_neg h2, List.cons_append,
      List.cons.injEq, true_and]
    exact ih fun y hy => h y (List.mem_cons_of_mem a hy)

theorem foldl_sortedInsert {key : α → Nat} :
    ∀ {l acc : List α}, List.Pairwise (fun a b => key a < key b) l →
      (∀ y ∈ acc, ∀ x ∈ l, key y < key x) →
      l.foldl (sortedInsert key) acc = acc ++ l := by
  intro l
  induction l with
  | nil => intro acc _ _; simp
  | cons x xs ih =>
    intro acc hp hacc
    have hx : sortedInsert key acc x = acc ++ [x] :=
      sortedInsert_append fun y hy => hacc y hy x (List.mem_cons_self x xs)
    have hpx := (List.pairwise_cons.mp hp).1
    have hps := (List.pairwise_cons.mp hp).2
    simp only [List.foldl_cons, hx]
    rw [ih hps]
    · simp
    · intro y hy z hz
      rcases List.mem_append.mp hy with hy' | hy'
      · exact hacc y hy' z (List.mem_cons_of_mem x hz)
      · have : y = x := List.mem_singleton.mp hy'
        subst this; exact hpx z hz

theorem setOfList_id {key : α → Nat} {l : List α} (h : setWf key l) :
    setOfList key l = l := by
  have := @foldl_sortedInsert _ key l [] h (by simp)
  simpa [setOfList] using this

theorem rdSet_enc {key : α → Nat} {enc : α → List Nat}
    {rd : List Nat → Option (α × List Nat)} {xs : List α}
    (hlen : xs.length < 65536) (hsorted : setWf key xs)
    (h : ∀ x ∈ xs, ∀ r, rd (enc x ++ r) = some (x, r)) (r : List Nat) :
    rdSet key rd (encSet enc xs ++ r) = some (xs, r) := by
  simp [rdSet, encSet, List.append_assoc, rdU16_enc hlen, rdList_enc h,
    setOfList_id hsorted]

theorem rdContainer_enc {c : Container} (h : c.wf) (r : List Nat) :
    rdContainer (encContainer c ++ r) = some (c, r) := by
  obtain ⟨hv, ⟨hm1, hm2⟩, ⟨hi1, hi2⟩, hs, hn, hc⟩ := h
  have hn' : c.chunks.length < 16777216 := by omega
  have hids : ∀ x ∈ c.chunks, ∀ r', rdHash32 (id x ++ r') = some (x, r') :=
    fun x hx r' => rdHash32_enc (hc x hx) r'
  simp [rdContainer, encContainer, List.append_assoc, rdU16_enc hv,
    rdAsciiString_enc hm1 hm2, rdString_enc hi1 hi2, rdU64_enc hs,
    rdU24_enc hn', rdList_enc hids]

theorem rdTopic_enc {t : Topic} (h : t.wf) (r : List Nat) :
    rdTopic (encTopic t ++ r) = some (t, r) := by
  obtain ⟨⟨hb, _⟩, hn, hc⟩ := h
  have hids : ∀ x ∈ t.container_ids, ∀ r', rdHash32 (id x ++ r') = some (x, r') :=
    fun x hx r' => rdHash32_enc (hc x hx) r'
  simp [rdTopic, encTopic, List.append_assoc, rdVecU8_enc hb,
    rdU16_enc hn, rdList_enc hids]

theorem rdMesg_enc {m : Mesg} (h : m.wf) (r : List Nat) :
    rdMesg (encMesg m ++ r) = some (m, r) := by
  obtain ⟨hp, ⟨hb, _⟩, hn, hc⟩ := h
  have hids : ∀ x ∈ m.container_ids, ∀ r', rdHash32 (id x ++ r') = some (x, r') :=
    fun x hx r' => rdHash32_enc (hc x hx) r'
  simp [rdMesg, encMesg, List.append_assoc, rdHash32_enc hp,
    rdVecU8_enc hb, rdU16_enc hn, rdList_enc hids]

theorem rdChunkFullId_enc {x : ChunkFullId} (h : x.wf) (r : List Nat) :
    rdChunkFullId (encChunkFullId x ++ r) = some (x, r) := by
  simp [rdChunkFullId, encChunkFullId, List.append_assoc,
    rdHash32_enc h.1, rdHash32_enc h.2]

theorem rdContainerFullId_enc {x : ContainerFullId} (h : x.wf) (r : List Nat) :
    rdContainerFullId (encContainerFullId x ++ r) = some (x, r) := by
  simp [rdContainerFullId, encContainerFullId, List.append_assoc,
    rdHash32_enc h.1, rdHash32_enc h.2]

theorem rdTopicList_enc {x : TopicList} (h : x.wf) (r : List Nat) :
    rdTopicList (encTopicList x ++ r) = some (x, r) := by
  obtain ⟨ha, hn, hs, hh⟩ := h
  have hids : ∀ y ∈ x.topics, ∀ r', rdHash32 (id y ++ r') = some (y, r') :=
    fun y hy r' => rdHash32_enc (hh y hy) r'
  simp [rdTopicList, encTopicList, List.append_assoc, rdStormApp_enc ha,
    rdSet_enc hn hs hids]

theorem rdPostReq_enc {x : PostReq} (h : x.wf) (r : List Nat) :
    rdPostReq (encPostReq x ++ r) = some (x, r) := by
  simp [rdPostReq, encPostReq, List.append_assoc, rdStormApp_enc h.1,
    rdMesg_enc h.2]

theorem rdMesgReq_enc {x : MesgReq} (h : x.wf) (r : List Nat) :
    rdMesgReq (encMesgReq x ++ r) = some (x, r) := by
  simp [rdMesgReq, encMesgReq, List.append_assoc, rdStormApp_enc h.1,
    rdHash32_enc h.2]

theorem rdContainerPull_enc {x : ContainerPull} (h : x.wf) (r : List Nat) :
    rdContainerPull (encContainerPull x ++ r) = some (x, r) := by
  simp [rdContainerPull, encContainerPull, List.append_assoc,
    rdStormApp_enc h.1, rdHash32_enc h.2.1, rdHash32_enc h.2.2]

theorem rdContainerPush_enc {x : ContainerPush} (h : x.wf) (r : List Nat) :
    rdContainerPush (encContainerPush x ++ r) = some (x, r) := by
  simp [rdContainerPush, encContainerPush, List.append_assoc,
    rdStormApp_enc h.1, rdHash32_enc h.2.1, rdContainer_enc h.2.2]

theorem rdChunkPull_enc {x : ChunkPull} (h : x.wf) (r : List Nat) :
    rdChunkPull (encChunkPull x ++ r) = some (x, r) := by
  obtain ⟨ha, hm, hi, hn, hs, hh⟩ := h
  have hids : ∀ y ∈ x.chunk_ids, ∀ r', rdHash32 (id y ++ r') = some (y, r') :=
    fun y hy r' => rdHash32_enc (hh y hy) r'
  simp [rdChunkPull, encChunkPull, List.append_assoc, rdStormApp_enc ha,
    rdHash32_enc hm, rdHash32_enc hi, rdSet_enc hn hs hids]

theorem rdChunkPush_enc {x : ChunkPush} (h : x.wf) (r : List Nat) :
    rdChunkPush (encChunkPush x ++ r) = some (x, r) := by
  simp [rdChunkPush, encChunkPush, List.append_assoc, rdStormApp_enc h.1,
    rdHash32_enc h.2.1, rdHash32_enc h.2.2.1, rdChunk_enc h.2.2.2]

theorem rdMessages_enc {m : Messages} (h : m.wf) (r : List Nat) :
    rdMessages (encMessages m ++ r) = some (m, r) := by
  cases m with
  | listApps =>
    simp [rdMessages, encMessages, Messages.typeCode, Messages.encFields,
      List.append_assoc, @rdU16_enc 0x0002 (by norm_num)]
  | activeApps apps =>
    obtain ⟨hn, hs, hc⟩ := h
    have happs : ∀ a ∈ apps, ∀ r',
        rdStormApp (encStormApp a ++ r') = some (a, r') :=
      fun a ha r' => rdStormApp_enc (hc a ha) r'
    simp [rdMessages, encMessages, Messages.typeCode, Messages.encFields,
      List.append_assoc, @rdU16_enc 0x0003 (by norm_num), rdSet_enc hn hs happs]
  | listTopics app =>
    simp [rdMessages, encMessages, Messages.typeCode, Messages.encFields,
      List.append_assoc, @rdU16_enc 0x0004 (by norm_num), rdStormApp_enc h]
  | appTopics msg =>
    simp [rdMessages, encMessages, Messages.typeCode, Messages.encFields,
      List.append_assoc, @rdU16_enc 0x0005 (by norm_num), rdTopicList_enc h]
  | proposeTopic msg =>
    simp [rdMessages, encMessages, Messages.typeCode, Messages.encFields,
      List.append_assoc, @rdU16_enc 0x0006 (by norm_num), rdTopic_enc h]
  | post msg =>
    simp [rdMessages, encMessages, Messages.typeCode, Messages.encFields,
      List.append_assoc, @rdU16_enc 0x0008 (by norm_num), rdPostReq_enc h]
  | read msg =>
    simp [rdMessages, encMessages, Messages.typeCode, Messages.encFields,
      List.append_assoc, @rdU16_enc 0x000a (by norm_num), rdMesgReq_enc h]
  | decline msg =>
    simp [rdMessages, encMessages, Messages.typeCode, Messages.encFields,
      List.append_assoc, @rdU16_enc 0x000c (by norm_num), rdMesgReq_enc h]
  | accept msg =>
    simp [rdMessages, encMessages, Messages.typeCode, Messages.encFields,
      List.append_assoc, @rdU16_enc 0x000e (by norm_num), rdMesgReq_enc h]
  | pullContainer msg =>
    simp [rdMessages, encMessages, Messages.typeCode, Messages.encFields,
      List.append_assoc, @rdU16_enc 0x0010 (by norm_num), rdContainerPull_enc h]
  | pushContainer msg =>
    simp [rdMessages, encMessages, Messages.typeCode, Messages.encFields,
      List.append_assoc, @rdU16_enc 0x0011 (by norm_num), rdContainerPush_enc h]
  | reject msg =>
    simp [rdMessages, encMessages, Messages.typeCode, Messages.encFields,
      List.append_assoc, @rdU16_enc 0x0012 (by norm_num), rdContainerPull_enc h]
  | pullChunk msg =>
    simp [rdMessages, encMessages, Messages.typeCode, Messages.encFields,
      List.append_assoc, @rdU16_enc 0x0014 (by norm_num), rdChunkPull_enc h]
  | pushChunk msg =>
    simp [rdMessages, encMessages, Messages.typeCode, Messages.encFields,
      List.append_assoc, @rdU16_enc 0x0015 (by norm_num), rdChunkPush_enc h]

theorem groupsToBits_bitsToGroups {bits : List Nat} (h2 : ∀ b ∈ bits, b < 2)
    (h5 : bits.length % 5 = 0) :
    encList fiveToBits (bitsToGroups bits) = bits := by
  induction bits using bitsToGroups.induct with
  | case1 b0 b1 b2 b3 b4 r ih =>
    simp only [List.length_cons] at h5
    have hb0 := h2 b0 (by simp)
    have hb1 := h2 b1 (by simp)
    have hb2 := h2 b2 (by simp)
    have hb3 := h2 b3 (by simp)
    have hb4 := h2 b4 (by simp)
    simp only [bitsToGroups, encList, fiveToBits]
    rw [ih (fun b hb => h2 b (by simp [hb])) (by omega)]
    simp only [List.cons_append, List.nil_append, List.cons.injEq, and_true]
    refine ⟨?_, ?_, ?_, ?_, ?_⟩ <;> omega
  | case2 t hne =>
    rcases t with _ | ⟨b0, _ | ⟨b1, _ | ⟨b2, _ | ⟨b3, _ | ⟨b4, r⟩⟩⟩⟩⟩
    · rfl
    · simp at h5
    · simp at h5
    · simp at h5
    · simp at h5
    · exact (hne b0 b1 b2 b3 b4 r rfl).elim

theorem bitsToBytes_enc {bytes : List Nat} (h : ∀ b ∈ bytes, b < 256) :
    bitsToBytes (encList byteToBits bytes) = bytes := by
  induction bytes with
  | nil => rfl
  | cons b bs ih =>
    have hb := h b (by simp)
    simp only [encList, byteToBits, List.cons_append, List.nil_append,
      bitsToBytes, List.cons.injEq]
    exact ⟨by omega, ih fun x hx => h x (by simp [hx])⟩

theorem encList_byteToBits_length (bytes : List Nat) :
    (encList byteToBits bytes).length = 8 * bytes.length := by
  induction bytes with
  | nil => rfl
  | cons b bs ih => simp [encList, byteToBits, ih]; omega

theorem encList_byteToBits_lt2 {bytes : List Nat} :
    ∀ x ∈ encList byteToBits bytes, x < 2 := by
  induction bytes with
  | nil => simp [encList]
  | cons b bs ih =>
    intro x hx
    simp only [encList, List.mem_append] at hx
    rcases hx with hx | hx
    · simp only [byteToBits, List.mem_cons, List.not_mem_nil, or_false] at hx
      rcases hx with h | h | h | h | h | h | h | h <;> subst h <;> omega
    · exact ih x hx

theorem fromBase32_toBase32 {bytes : List Nat} (h : ∀ b ∈ bytes, b < 256) :
    fromBase32 (toBase32 bytes) = some bytes := by
  have hlen : (encList byteToBits bytes).length = 8 * bytes.length :=
    encList_byteToBits_length bytes
  simp only [toBase32, fromBase32]
  set bits := encList byteToBits bytes with hbits
  set p := (5 - bits.length % 5) % 5 with hp
  have hplt : p < 5 := by omega
  have hpad2 : ∀ b ∈ bits ++ List.replicate p 0, b < 2 := by
    intro b hb
    rcases List.mem_append.mp hb with hb | hb
    · exact encList_byteToBits_lt2 b hb
    · have := List.eq_of_mem_replicate hb; omega
  have hpad5 : (bits ++ List.replicate p 0).length % 5 = 0 := by
    simp only [List.length_append, List.length_replicate]
    omega
  rw [groupsToBits_bitsToGroups hpad2 hpad5]
  have hdiv : (bits ++ List.replicate p 0).length / 8 = bytes.length := by
    simp only [List.length_append, List.length_replicate]
    omega
  rw [hdiv]
  have hexact : bytes.length * 8 = bits.length := by omega
  rw [hexact, List.take_left, List.drop_left]
  have hcond : (List.replicate p 0).length < 5 ∧
      (List.replicate p 0).all (fun b => decide (b = 0)) = true := by
    refine ⟨by simpa using hplt, ?_⟩
    simp only [List.all_eq_true, decide_eq_true_eq]
    intro x hx
    exact List.eq_of_mem_replicate hx
  rw [if_pos hcond, bitsToBytes_enc h]

theorem splitLastSep_none {d : List Char} (h : '1' ∉ d) :
    splitLastSep d = none := by
  induction d with
  | nil => rfl
  | cons c r ih =>
    have hc : c ≠ '1' := fun hc => h (hc ▸ List.mem_cons_self c r)
    have hr : '1' ∉ r := fun hr => h (List.mem_cons_of_mem c hr)
    simp [splitLastSep, ih hr, hc]

theorem splitLastSep_append {h d : List Char} (hd : '1' ∉ d) :
    splitLastSep (h ++ '1' :: d) = some (h, d) := by
  induction h with
  | nil => simp [splitLastSep, splitLastSep_none hd]
  | cons c r ih => simp [splitLastSep, ih]

theorem charsetChar_ne_sep (v : Nat) : charsetChar v ≠ '1' := by
  unfold charsetChar
  rcases Nat.lt_or_ge v 32 with h | h
  · have hb : ∀ w < 32, bech32Charset.getD w 'q' ≠ '1' := by decide
    exact hb v h
  · rw [List.getD_eq_default]
    · decide
    · simp only [bech32Charset, List.length_cons, List.length_nil]
      omega

theorem charsetIdx_charsetChar {v : Nat} (h : v < 32) :
    charsetIdx (charsetChar v) = some v := by
  have hb : ∀ w < 32, charsetIdx (charsetChar w) = some w := by decide
  exact hb v h

theorem mapCharset_map {vals : List Nat} (h : ∀ v ∈ vals, v < 32) :
    mapCharset (vals.map charsetChar) = some vals := by
  induction vals with
  | nil => rfl
  | cons v vs ih =>
    have hv := charsetIdx_charsetChar (h v (by simp))
    simp [mapCharset, hv, ih fun w hw => h w (by simp [hw])]

theorem bitsToGroups_lt32 {bits : List Nat} (h2 : ∀ b ∈ bits, b < 2) :
    ∀ x ∈ bitsToGroups bits, x < 32 := by
  induction bits using bitsToGroups.induct with
  | case1 b0 b1 b2 b3 b4 r ih =>
    intro x hx
    have hb0 := h2 b0 (by simp)
    have hb1 := h2 b1 (by simp)
    have hb2 := h2 b2 (by simp)
    have hb3 := h2 b3 (by simp)
    have hb4 := h2 b4 (by simp)
    simp only [bitsToGroups, List.mem_cons] at hx
    rcases hx with hx | hx
    · omega
    · exact ih (fun b hb => h2 b (by simp [hb])) x hx
  | case2 t hne =>
    rcases t with _ | ⟨b0, _ | ⟨b1, _ | ⟨b2, _ | ⟨b3, _ | ⟨b4, r⟩⟩⟩⟩⟩ <;>
      first
      | (intro x hx; exact absurd hx (List.not_mem_nil x))
      | exact (hne b0 b1 b2 b3 b4 r rfl).elim

theorem toBase32_lt32 (bytes : List Nat) : ∀ x ∈ toBase32 bytes, x < 32 := by
  unfold toBase32
  apply bitsToGroups_lt32
  intro b hb
  rcases List.mem_append.mp hb with hb | hb
  · exact encList_byteToBits_lt2 b hb
  · have := List.eq_of_mem_replicate hb; omega

theorem createChecksum_lt32 (hrp : List Char) (data : List Nat) :
    ∀ x ∈ createChecksum hrp data, x < 32 := by
  intro x hx
  simp only [createChecksum, List.mem_cons, List.not_mem_nil, or_false] at hx
  have hland : ∀ a : Nat, a &&& 31 < 32 := fun a =>
    Nat.lt_succ_of_le Nat.and_le_right
  rcases hx with h | h | h | h | h | h <;> subst h <;> exact hland _

theorem createChecksum_length (hrp : List Char) (data : List Nat) :
    (createChecksum hrp data).length = 6 := rfl

theorem bech32Parse_assemble {hrp : List Char} {data5 : List Nat}
    (hall : ∀ v ∈ data5, v < 32) :
    bech32Parse (bech32Assemble hrp data5) = .ok (hrp, data5) := by
  have hall2 : ∀ v ∈ data5 ++ createChecksum hrp data5, v < 32 := by
    intro v hv
    rcases List.mem_append.mp hv with hv | hv
    · exact hall v hv
    · exact createChecksum_lt32 _ _ v hv
  have hsep : '1' ∉ (data5 ++ createChecksum hrp data5).map charsetChar := by
    intro hmem
    rcases List.mem_map.mp hmem with ⟨v, _, hv⟩
    exact charsetChar_ne_sep v hv
  have hlen : ((data5 ++ createChecksum hrp data5).map charsetChar).length =
      data5.length + 6 := by
    simp [createChecksum_length]
  have hlen2 : (data5 ++ createChecksum hrp data5).length - 6 = data5.length := by
    simp [createChecksum_length]
  unfold bech32Parse bech32Assemble
  rw [splitLastSep_append hsep]
  simp only [hlen, mapCharset_map hall2, hlen2]
  rw [if_neg (by omega)]
  rw [List.take_left, List.drop_left, if_pos rfl]

theorem containerIdFromStr_enc {id : List Nat} (h : hash32wf id) :
    containerIdFromStr (containerIdToBech32 id) = .ok id := by
  unfold containerIdFromStr containerIdToBech32
  rw [bech32Parse_assemble (toBase32_lt32 id)]
  simp [fromBase32_toBase32 h.2, h.1]

theorem containerIdFromStr_ok_inv {s : List Char} {x : List Nat}
    (h : containerIdFromStr s = .ok x) :
    ∃ dataPart vals, splitLastSep s = some (stormHrp, dataPart) ∧
      mapCharset dataPart = some vals ∧
      vals.drop (vals.length - 6) =
        createChecksum stormHrp (vals.take (vals.length - 6)) := by
  unfold containerIdFromStr bech32Parse at h
  cases hsp : splitLastSep s with
  | none => rw [hsp] at h; simp at h
  | some pr =>
    obtain ⟨hrp, dataPart⟩ := pr
    rw [hsp] at h
    dsimp only at h
    by_cases hl : dataPart.length < 6
    · rw [if_pos hl] at h; simp at h
    · rw [if_neg hl] at h
      cases hmc : mapCharset dataPart with
      | none => rw [hmc] at h; simp at h
      | some vals =>
        rw [hmc] at h
        simp only at h
        by_cases hchk : vals.drop (vals.length - 6) =
            createChecksum hrp (vals.take (vals.length - 6))
        · rw [if_pos hchk] at h
          simp only at h
          by_cases hh : hrp = stormHrp
          · subst hh
            exact ⟨dataPart, vals, rfl, hmc, hchk⟩
          · rw [if_neg hh] at h; simp at h
        · rw [if_neg hchk] at h; simp at h

theorem app_code_from_code (c : Nat) :
    (StormApp.from_code c).app_code = c := by
  unfold StormApp.from_code
  split_ifs with h1 h2 h3 h4 h5 h6 h7 h8 <;>
    simp_all [StormApp.app_code, STORM_APP_SYSTEM, STORM_APP_CHAT,
      STORM_APP_STORAGE, STORM_APP_FILE_TRANSFER, STORM_APP_SEARCH,
      STORM_APP_RGB_CONTRACTS, STORM_APP_RGB_TRANSFERS]

theorem messages_code_inj :
    ∀ m1 m2 : Messages, m1.variantIdx ≠ m2.variantIdx →
      m1.typeCode ≠ m2.typeCode := by
  intro m1 m2
  cases m1 <;> cases m2 <;>
    simp [Messages.typeCode, Messages.variantIdx]

theorem rdList_length {rd : List Nat → Option (α × List Nat)} :
    ∀ {n : Nat} {l : List Nat} {xs : List α} {r : List Nat},
      rdList rd n l = some (xs, r) → xs.length = n := by
  intro n
  induction n with
  | zero =>
    intro l xs r h
    simp only [rdList, Option.some.injEq, Prod.mk.injEq] at h
    rw [← h.1]; rfl
  | succ k ih =>
    intro l xs r h
    simp only [rdList] at h
    cases ha : rd l with
    | none => rw [ha] at h; simp at h
    | some al =>
      rw [ha] at h
      simp only [Option.some_bind] at h
      cases hb : rdList rd k al.2 with
      | none => rw [hb] at h; simp at h
      | some bl =>
        rw [hb] at h
        simp only [Option.map_some', Option.some.injEq, Prod.mk.injEq] at h
        rw [← h.1]
        simp [ih hb]

theorem rdU16_suffix {l r : List Nat} {v : Nat} (h : rdU16 l = some (v, r)) :
    r.IsSuffix l := by
  match l, h with
  | b0 :: b1 :: t, h =>
    simp only [rdU16, Option.some.injEq, Prod.mk.injEq] at h
    rw [← h.2]
    exact ⟨[b0, b1], rfl⟩

theorem rdU64_suffix {l r : List Nat} {v : Nat} (h : rdU64 l = some (v, r)) :
    r.IsSuffix l := by
  match l, h with
  | b0 :: b1 :: b2 :: b3 :: b4 :: b5 :: b6 :: b7 :: t, h =>
    simp only [rdU64, Option.some.injEq, Prod.mk.injEq] at h
    rw [← h.2]
    exact ⟨[b0, b1, b2, b3, b4, b5, b6, b7], rfl⟩

theorem rdBytes_suffix {n : Nat} {l b r : List Nat}
    (h : rdBytes n l = some (b, r)) : r.IsSuffix l := by
  unfold rdBytes at h
  by_cases hn : n ≤ l.length
  · rw [if_pos hn] at h
    simp only [Option.some.injEq, Prod.mk.injEq] at h
    rw [← h.2]
    exact List.drop_suffix n l
  · rw [if_neg hn] at h; simp at h

theorem rdAsciiString_suffix {l b r : List Nat}
    (h : rdAsciiString l = some (b, r)) : r.IsSuffix l := by
  unfold rdAsciiString at h
  cases e1 : rdU16 l with
  | none => rw [e1] at h; simp at h
  | some nl =>
    rw [e1] at h
    simp only [Option.some_bind] at h
    cases e2 : rdBytes nl.1 nl.2 with
    | none => rw [e2] at h; simp at h
    | some bl =>
      rw [e2] at h
      simp only [Option.some_bind] at h
      by_cases ha : allAscii bl.1 = true
      · rw [if_pos ha] at h
        simp only [Option.some.injEq] at h
        subst h
        exact (rdBytes_suffix e2).trans (rdU16_suffix e1)
      · rw [if_neg ha] at h; simp at h

theorem rdString_suffix {l b r : List Nat}
    (h : rdString l = some (b, r)) : r.IsSuffix l := by
  unfold rdString at h
  cases e1 : rdU16 l with
  | none => rw [e1] at h; simp at h
  | some nl =>
    rw [e1] at h
    simp only [Option.some_bind] at h
    cases e2 : rdBytes nl.1 nl.2 with
    | none => rw [e2] at h; simp at h
    | some bl =>
      rw [e2] at h
      simp only [Option.some_bind] at h
      by_cases hu : isUtf8 bl.1 = true
      · rw [if_pos hu] at h
        simp only [Option.some.injEq] at h
        subst h
        exact (rdBytes_suffix e2).trans (rdU16_suffix e1)
      · rw [if_neg hu] at h; simp at h

theorem rdU24_bound {l : List Nat} (hb : ∀ x ∈ l, x < 256) {v : Nat}
    {r : List Nat} (h : rdU24 l = some (v, r)) : v ≤ 0xFFFFFF := by
  match l, h with
  | b0 :: b1 :: b2 :: t, h =>
    have h0 := hb b0 (by simp)
    have h1 := hb b1 (by simp)
    have h2 := hb b2 (by simp)
    simp only [rdU24, Option.some.injEq, Prod.mk.injEq] at h
    omega

theorem rdContainer_chunks_bound {bs : List Nat} (hb : ∀ x ∈ bs, x < 256)
    {c : Container} {r : List Nat} (h : rdContainer bs = some (c, r)) :
    c.chunks.length ≤ 0xFFFFFF := by
  unfold rdContainer at h
  cases e1 : rdU16 bs with
  | none => rw [e1] at h; simp at h
  | some vl =>
    rw [e1] at h
    simp only [Option.some_bind] at h
    cases e2 : rdAsciiString vl.2 with
    | none => rw [e2] at h; simp at h
    | some ml =>
      rw [e2] at h
      simp only [Option.some_bind] at h
      cases e3 : rdString ml.2 with
      | none => rw [e3] at h; simp at h
      | some il =>
        rw [e3] at h
        simp only [Option.some_bind] at h
        cases e4 : rdU64 il.2 with
        | none => rw [e4] at h; simp at h
        | some sl =>
          rw [e4] at h
          simp only [Option.some_bind] at h
          cases e5 : rdU24 sl.2 with
          | none => rw [e5] at h; simp at h
          | some nl =>
            rw [e5] at h
            simp only [Option.some_bind] at h
            cases e6 : rdList rdHash32 nl.1 nl.2 with
            | none => rw [e6] at h; simp at h
            | some cl =>
              rw [e6] at h
              simp only [Option.map_some', Option.some.injEq,
                Prod.mk.injEq] at h
              have hsuf : sl.2.IsSuffix bs :=
                ((rdU64_suffix e4).trans
                  ((rdString_suffix e3).trans
                    ((rdAsciiString_suffix e2).trans (rdU16_suffix e1))))
              have hb2 : ∀ x ∈ sl.2, x < 256 := fun x hx =>
                hb x (hsuf.subset hx)
              have hv := rdU24_bound hb2 e5
              have hlen := rdList_length e6
              rw [← h.1]
              simpa [hlen] using hv

theorem rdU16_enc_nil {n : Nat} (h : n < 65536) :
    rdU16 (encU16 n) = some (n, []) := by
  simpa using rdU16_enc h []

/-- C1: the spec demands that identifiers produced under different domain
tags never compare equal on byte-identical payloads, but the midstate
constant of `MesgIdTag` is byte-for-byte the midstate constant of
`ContainerIdTag`, so the message commitment and the container commitment
coincide on every byte string. -/
theorem C1_container_mesg_commit_coincide :
    MIDSTATE_MESG_ID = MIDSTATE_CONTAINER_ID ∧
    ∀ b : List Nat, mesgIdCommit b = containerIdCommit b :=
  ⟨rfl, fun _ => rfl⟩

/-- C3: conversion between `StormApp` and its raw 16-bit code is total and
lossless: every `u16` code classifies to a variant whose code is the
original, reclassifying is stable, and the boundary codes `0x7FFF` and
`0x8000` land in the future and vendor ranges respectively. -/
theorem C3_stormapp_code_total_lossless :
    (∀ c : Nat, c < 65536 →
      (StormApp.from_code c).app_code = c ∧
      StormApp.from_code (StormApp.from_code c).app_code =
        StormApp.from_code c) ∧
    StormApp.from_code 0x7FFF = .future 0x7FFF ∧
    StormApp.from_code 0x8000 = .vendor 0x8000 := by
  refine ⟨fun c _ => ⟨app_code_from_code c, ?_⟩, by decide, by decide⟩
  rw [app_code_from_code c]

/-- Witness for C3 at the boundary codes. -/
theorem C3_stormapp_code_total_lossless_witness :
    ((0x7FFF : Nat) < 65536 ∧
      (StormApp.from_code 0x7FFF).app_code = 0x7FFF) ∧
    ((0x8000 : Nat) < 65536 ∧
      (StormApp.from_code 0x8000).app_code = 0x8000) :=
  ⟨⟨by decide, (C3_stormapp_code_total_lossless.1 0x7FFF (by decide)).1⟩,
   ⟨by decide, (C3_stormapp_code_total_lossless.1 0x8000 (by decide)).1⟩⟩

/-- C4: constructing a `Chunk` from `2^24` bytes fails with the capacity
error (`ExceedMaxItems` through `TryFrom`, `TooLargeData` through the
`TryToChunk` strategy), `2^24 - 1` bytes succeed with the bytes kept
verbatim, and an oversized input always yields an error, never a
truncated chunk. -/
theorem tryFrom_large {v : List Nat} (h : 0xFFFFFF < v.length) :
    Chunk.tryFrom v = .error (.exceedMaxItems v.length) := by
  unfold Chunk.tryFrom mediumVecTryFrom
  rw [if_neg (by omega)]
  rfl

theorem tryFrom_small {v : List Nat} (h : v.length ≤ 0xFFFFFF) :
    Chunk.tryFrom v = .ok ⟨v⟩ := by
  unfold Chunk.tryFrom mediumVecTryFrom
  rw [if_pos h]
  rfl

theorem tryToChunk_large {v : List Nat} (h : 0xFFFF < v.length) :
    tryToChunkVecU8 v = .error .tooLargeData := by
  unfold tryToChunkVecU8 strictSerializeVecU8
  rw [if_neg (by omega)]
  rfl

theorem C4_chunk_capacity :
    Chunk.tryFrom (List.replicate 16777216 0) =
      .error (.exceedMaxItems 16777216) ∧
    Chunk.tryFrom (List.replicate 16777215 0) =
      .ok ⟨List.replicate 16777215 0⟩ ∧
    tryToChunkVecU8 (List.replicate 16777216 0) = .error .tooLargeData ∧
    (∀ v : List Nat, 0xFFFFFF < v.length →
      Chunk.tryFrom v = .error (.exceedMaxItems v.length)) := by
  refine ⟨?_, ?_, ?_, fun v hv => tryFrom_large hv⟩
  · have h16 : (0xFFFFFF : Nat) < (List.replicate 16777216 (0 : Nat)).length := by
      rw [List.length_replicate]; norm_num
    have he := tryFrom_large h16
    rw [List.length_replicate] at he
    exact he
  · exact tryFrom_small (by rw [List.length_replicate])
  · exact tryToChunk_large (by rw [List.length_replicate]; norm_num)

/-- Witness for C4's universally quantified no-truncation clause. -/
theorem C4_chunk_capacity_witness :
    0xFFFFFF < (List.replicate 16777216 (0 : Nat)).length ∧
    Chunk.tryFrom (List.replicate 16777216 0) =
      .error (.exceedMaxItems (List.replicate 16777216 (0 : Nat)).length) :=
  ⟨by rw [List.length_replicate]; norm_num,
   C4_chunk_capacity.2.2.2 _ (by rw [List.length_replicate]; norm_num)⟩

/-- C9: `chunk_id` is deterministic content addressing: equal construction
runs give equal identifiers, chunks with identical bytes share one
identifier, and the identifier is a pure function of the bytes alone. -/
theorem C9_chunk_id_content_addressing :
    (∀ (b : List Nat) (c1 c2 : Chunk),
      Chunk.tryFrom b = .ok c1 → Chunk.tryFrom b = .ok c2 →
      c1.chunk_id = c2.chunk_id) ∧
    (∀ c1 c2 : Chunk, c1.bytes = c2.bytes → c1.chunk_id = c2.chunk_id) ∧
    (∀ c : Chunk, c.chunk_id = chunkIdOfBytes c.bytes) := by
  refine ⟨fun b c1 c2 h1 h2 => ?_, fun c1 c2 h => ?_, fun c => rfl⟩
  · rw [h1] at h2
    injection h2 with h
    rw [h]
  · have hc : c1 = c2 := by
      cases c1; cases c2; simpa using h
    rw [hc]

/-- Witness for C9 at a concrete three-byte chunk. -/
theorem C9_chunk_id_content_addressing_witness :
    (Chunk.mk [1, 2, 3]).bytes = (Chunk.mk [1, 2, 3]).bytes ∧
    (Chunk.mk [1, 2, 3]).chunk_id = (Chunk.mk [1, 2, 3]).chunk_id :=
  ⟨rfl, C9_chunk_id_content_addressing.2.1 _ _ rfl⟩

/-- C10: the wire form of `StormApp` is only the 16-bit code and decoding
re-classifies it through `From<u16>`, so non-canonical `Future`/`Vendor`
values over a registered code encode identically to the registered variant
and decode to it, e.g. `decode(encode(Future(0x0001)))` is `Chat`. -/
theorem C10_stormapp_wire_reclassify :
    (∀ app : StormApp, encStormApp app = encU16 app.app_code) ∧
    (∀ c : Nat, c < 65536 →
      rdStormApp (encStormApp (.future c)) = some (StormApp.from_code c, []) ∧
      rdStormApp (encStormApp (.vendor c)) = some (StormApp.from_code c, [])) ∧
    rdStormApp (encStormApp (.future 1)) = some (.chat, []) ∧
    StormApp.chat ≠ .future 1 ∧
    (∀ c ∈ [0x0000, 0x0001, 0x0002, 0x0003, 0x0004, 0x0010, 0x0011],
      StormApp.from_code c ≠ .future c ∧ StormApp.from_code c ≠ .vendor c ∧
      encStormApp (.future c) = encStormApp (StormApp.from_code c) ∧
      encStormApp (.vendor c) = encStormApp (StormApp.from_code c)) := by
  have hrd : ∀ c : Nat, c < 65536 →
      rdStormApp (encU16 c) = some (StormApp.from_code c, []) := by
    intro c hc
    simp [rdStormApp, rdU16_enc_nil hc]
  refine ⟨fun app => rfl, fun c hc => ⟨?_, ?_⟩, by decide, by decide, ?_⟩
  · simpa [encStormApp, StormApp.app_code] using hrd c hc
  · simpa [encStormApp, StormApp.app_code] using hrd c hc
  · intro c hc
    fin_cases hc <;> refine ⟨by decide, by decide, ?_, ?_⟩ <;>
      simp [encStormApp, StormApp.app_code] <;> decide

/-- Witness for C10 at the registered chat code. -/
theorem C10_stormapp_wire_reclassify_witness :
    (1 : Nat) < 65536 ∧
    rdStormApp (encStormApp (.future 1)) = some (StormApp.from_code 1, []) :=
  ⟨by decide, (C10_stormapp_wire_reclassify.2.1 1 (by decide)).1⟩

/-- C2 fails as stated: the non-canonical value `Future(0x0001)` encodes to
the bare code `0x0001`, which decodes to the registered variant `Chat`, so
`decode(encode(x)) = x` does not hold for every `StormApp` value. -/
theorem C2_roundtrip_cex :
    rdStormApp (encStormApp (.future 1)) = some (.chat, []) ∧
    StormApp.chat ≠ StormApp.future 1 :=
  ⟨by decide, by decide⟩

/-- C2 (amended): decoding the wire encoding yields the value back for every
entity type and protocol message variant, for values the Rust data model can
hold whose embedded `StormApp` values are canonical (in the image of
`From<u16>`). -/
theorem C2_roundtrip_all_types :
    (∀ app : StormApp, app.canonical →
      rdStormApp (encStormApp app) = some (app, [])) ∧
    (∀ c : Chunk, c.wf → rdChunk (encChunk c) = some (c, [])) ∧
    (∀ c : Container, c.wf → rdContainer (encContainer c) = some (c, [])) ∧
    (∀ t : Topic, t.wf → rdTopic (encTopic t) = some (t, [])) ∧
    (∀ m : Mesg, m.wf → rdMesg (encMesg m) = some (m, [])) ∧
    (∀ id : List Nat, hash32wf id → rdHash32 id = some (id, [])) ∧
    (∀ x : ChunkFullId, x.wf →
      rdChunkFullId (encChunkFullId x) = some (x, [])) ∧
    (∀ x : ContainerFullId, x.wf →
      rdContainerFullId (encContainerFullId x) = some (x, [])) ∧
    (∀ m : Messages, m.wf → rdMessages (encMessages m) = some (m, [])) := by
  refine ⟨fun a h => by simpa using rdStormApp_enc h [],
    fun c h => by simpa using rdChunk_enc h [],
    fun c h => by simpa using rdContainer_enc h [],
    fun t h => by simpa using rdTopic_enc h [],
    fun m h => by simpa using rdMesg_enc h [],
    fun i h => by simpa using rdHash32_enc h [],
    fun x h => by simpa using rdChunkFullId_enc h [],
    fun x h => by simpa using rdContainerFullId_enc h [],
    fun m h => by simpa using rdMessages_enc h []⟩

/-- Witness for C2 at concrete values of every entity type. -/
theorem C2_roundtrip_all_types_witness :
    StormApp.canonical .chat ∧
    rdStormApp (encStormApp .chat) = some (.chat, []) ∧
    Chunk.wf (Chunk.mk [7]) ∧
    rdChunk (encChunk (Chunk.mk [7])) = some (Chunk.mk [7], []) ∧
    Container.wf (Container.mk 1 [109] [104] 9 [List.replicate 32 0]) ∧
    rdContainer (encContainer (Container.mk 1 [109] [104] 9
      [List.replicate 32 0])) =
      some (Container.mk 1 [109] [104] 9 [List.replicate 32 0], []) ∧
    Topic.wf (Topic.mk [1, 2] [List.replicate 32 1]) ∧
    rdTopic (encTopic (Topic.mk [1, 2] [List.replicate 32 1])) =
      some (Topic.mk [1, 2] [List.replicate 32 1], []) ∧
    Mesg.wf (Mesg.mk (List.replicate 32 2) [3] []) ∧
    rdMesg (encMesg (Mesg.mk (List.replicate 32 2) [3] [])) =
      some (Mesg.mk (List.replicate 32 2) [3] [], []) ∧
    hash32wf (List.replicate 32 4) ∧
    rdHash32 (List.replicate 32 4) = some (List.replicate 32 4, []) ∧
    ChunkFullId.wf (ChunkFullId.mk (List.replicate 32 5) (List.replicate 32 6)) ∧
    rdChunkFullId (encChunkFullId
      (ChunkFullId.mk (List.replicate 32 5) (List.replicate 32 6))) =
      some (ChunkFullId.mk (List.replicate 32 5) (List.replicate 32 6), []) ∧
    ContainerFullId.wf
      (ContainerFullId.mk (List.replicate 32 5) (List.replicate 32 6)) ∧
    rdContainerFullId (encContainerFullId
      (ContainerFullId.mk (List.replicate 32 5) (List.replicate 32 6))) =
      some (ContainerFullId.mk (List.replicate 32 5) (List.replicate 32 6), []) ∧
    Messages.wf (Messages.post (PostReq.mk .chat
      (Mesg.mk (List.replicate 32 7) [1] []))) ∧
    rdMessages (encMessages (Messages.post (PostReq.mk .chat
      (Mesg.mk (List.replicate 32 7) [1] [])))) =
      some (Messages.post (PostReq.mk .chat
        (Mesg.mk (List.replicate 32 7) [1] [])), []) :=
  ⟨by decide, C2_roundtrip_all_types.1 _ (by decide),
   by decide, C2_roundtrip_all_types.2.1 _ (by decide),
   by decide, C2_roundtrip_all_types.2.2.1 _ (by decide),
   by decide, C2_roundtrip_all_types.2.2.2.1 _ (by decide),
   by decide, C2_roundtrip_all_types.2.2.2.2.1 _ (by decide),
   by decide, C2_roundtrip_all_types.2.2.2.2.2.1 _ (by decide),
   by decide, C2_roundtrip_all_types.2.2.2.2.2.2.1 _ (by decide),
   by decide, C2_roundtrip_all_types.2.2.2.2.2.2.2.1 _ (by decide),
   by decide, C2_roundtrip_all_types.2.2.2.2.2.2.2.2 _ (by decide)⟩

/-- C5: each protocol message variant carries its fixed 2-byte type code
from the closed table, the wire form is the code followed by the variant's
field encoding, and distinct variants never share a code. -/
theorem C5_messages_type_codes :
    Messages.listApps.typeCode = 0x0002 ∧
    (∀ s, (Messages.activeApps s).typeCode = 0x0003) ∧
    (∀ a, (Messages.listTopics a).typeCode = 0x0004) ∧
    (∀ x, (Messages.appTopics x).typeCode = 0x0005) ∧
    (∀ x, (Messages.proposeTopic x).typeCode = 0x0006) ∧
    (∀ x, (Messages.post x).typeCode = 0x0008) ∧
    (∀ x, (Messages.read x).typeCode = 0x000a) ∧
    (∀ x, (Messages.decline x).typeCode = 0x000c) ∧
    (∀ x, (Messages.accept x).typeCode = 0x000e) ∧
    (∀ x, (Messages.pullContainer x).typeCode = 0x0010) ∧
    (∀ x, (Messages.pushContainer x).typeCode = 0x0011) ∧
    (∀ x, (Messages.reject x).typeCode = 0x0012) ∧
    (∀ x, (Messages.pullChunk x).typeCode = 0x0014) ∧
    (∀ x, (Messages.pushChunk x).typeCode = 0x0015) ∧
    (∀ m : Messages, encMessages m = encU16 m.typeCode ++ m.encFields) ∧
    (∀ m1 m2 : Messages, m1.variantIdx ≠ m2.variantIdx →
      m1.typeCode ≠ m2.typeCode) :=
  ⟨rfl, fun _ => rfl, fun _ => rfl, fun _ => rfl, fun _ => rfl, fun _ => rfl,
   fun _ => rfl, fun _ => rfl, fun _ => rfl, fun _ => rfl, fun _ => rfl,
   fun _ => rfl, fun _ => rfl, fun _ => rfl, fun _ => rfl, messages_code_inj⟩

/-- Witness for C5's code-distinctness clause at two concrete variants. -/
theorem C5_messages_type_codes_witness :
    Messages.listApps.variantIdx ≠ (Messages.activeApps []).variantIdx ∧
    Messages.listApps.typeCode ≠ (Messages.activeApps []).typeCode :=
  ⟨by decide,
   C5_messages_type_codes.2.2.2.2.2.2.2.2.2.2.2.2.2.2.2 _ _ (by decide)⟩

/-- C6 fails as stated: the topic-proposal variant is not in the discovery
pair, yet its `Topic` payload declares no `StormApp`-typed field at all, so
not every non-discovery variant carries the originating app explicitly. -/
theorem C6_explicit_app_cex :
    ¬ (∀ m : Messages, m.isDiscovery = false →
        m.explicitAppField = some m.storm_app) := by
  intro h
  have hc := h (.proposeTopic (Topic.mk [] [])) rfl
  simp [Messages.explicitAppField] at hc

/-- C6 (amended): `storm_app` is total over the variant set; every variant
except the discovery pair and `ProposeTopic` carries the originating app as
an explicit payload field returned by `storm_app`; the discovery pair
routes to the system app. -/
theorem C6_storm_app_total_and_field :
    (∀ m : Messages, ∃ a : StormApp, m.storm_app = a) ∧
    (∀ m : Messages, m.isDiscovery = false → m.isProposeTopic = false →
      m.explicitAppField = some m.storm_app) ∧
    Messages.listApps.storm_app = .system ∧
    (∀ s, (Messages.activeApps s).storm_app = .system) := by
  refine ⟨fun m => ⟨m.storm_app, rfl⟩, fun m h1 h2 => ?_, rfl, fun _ => rfl⟩
  cases m <;> simp_all [Messages.isDiscovery, Messages.isProposeTopic,
    Messages.explicitAppField, Messages.storm_app]

/-- Witness for C6 at a concrete topic-listing request. -/
theorem C6_storm_app_total_and_field_witness :
    (Messages.listTopics .chat).isDiscovery = false ∧
    (Messages.listTopics .chat).isProposeTopic = false ∧
    (Messages.listTopics .chat).explicitAppField =
      some (Messages.listTopics .chat).storm_app :=
  ⟨rfl, rfl, C6_storm_app_total_and_field.2.1 _ rfl rfl⟩

theorem bigManifestContainer_wf : bigManifestContainer.wf := by
  unfold bigManifestContainer Container.wf
  refine ⟨by norm_num, ⟨by norm_num, rfl⟩, ⟨by norm_num, rfl⟩, by norm_num,
    ?_, ?_⟩
  · show (List.replicate 524289 (List.replicate 32 (0 : Nat))).length ≤ 0xFFFFFF
    rw [List.length_replicate]
    norm_num
  · intro h hh
    have he := List.eq_of_mem_replicate hh
    subst he
    refine ⟨List.length_replicate 32 0, fun b hb => ?_⟩
    have := List.eq_of_mem_replicate hb
    omega

/-- C7 fails as stated: a container with `2^19 + 1` chunk references is
wellformed for the data model and survives an encode/decode round trip, so
the `2^19` manifest ceiling is not an invariant the code maintains. -/
theorem C7_manifest_bound_cex :
    bigManifestContainer.wf ∧
    524288 < bigManifestContainer.chunks.length ∧
    rdContainer (encContainer bigManifestContainer) =
      some (bigManifestContainer, []) := by
  refine ⟨bigManifestContainer_wf, ?_, ?_⟩
  · show 524288 < (List.replicate 524289 (List.replicate 32 (0 : Nat))).length
    rw [List.length_replicate]
    norm_num
  · simpa using rdContainer_enc bigManifestContainer_wf []

/-- C7 (amended): the bound the data model does maintain is the `MediumVec`
ceiling of `2^24 - 1` chunk references: every wellformed container and every
container decoded from wire bytes respects it. -/
theorem C7_manifest_mediumvec_bound :
    (∀ c : Container, c.wf → c.chunks.length ≤ 0xFFFFFF) ∧
    (∀ (bs : List Nat) (c : Container) (r : List Nat),
      (∀ x ∈ bs, x < 256) → rdContainer bs = some (c, r) →
      c.chunks.length ≤ 0xFFFFFF) :=
  ⟨fun _ h => h.2.2.2.2.1, fun _ _ _ hb h => rdContainer_chunks_bound hb h⟩

/-- Witness for C7 at an empty container and its wire bytes. -/
theorem C7_manifest_mediumvec_bound_witness :
    Container.wf (Container.mk 0 [] [] 0 []) ∧
    (∀ x ∈ encContainer (Container.mk 0 [] [] 0 []), x < 256) ∧
    rdContainer (encContainer (Container.mk 0 [] [] 0 [])) =
      some (Container.mk 0 [] [] 0 [], []) ∧
    (Container.mk 0 [] [] 0 []).chunks.length ≤ 0xFFFFFF :=
  ⟨by decide, by decide, by decide,
   C7_manifest_mediumvec_bound.2 (encContainer (Container.mk 0 [] [] 0 []))
     (Container.mk 0 [] [] 0 []) [] (by decide) (by decide)⟩

/-- C8: bech32 decoding inverts encoding on every 32-byte container
identifier, and a decode can only succeed when the string splits at the
`storm` human-readable part and its checksum verifies — wrong-HRP or
corrupted strings are rejected. -/
theorem C8_bech32_roundtrip_validation :
    (∀ id : List Nat, hash32wf id →
      containerIdFromStr (containerIdToBech32 id) = .ok id) ∧
    (∀ (s : List Char) (x : List Nat), containerIdFromStr s = .ok x →
      ∃ dataPart vals, splitLastSep s = some (stormHrp, dataPart) ∧
        mapCharset dataPart = some vals ∧
        vals.drop (vals.length - 6) =
          createChecksum stormHrp (vals.take (vals.length - 6))) :=
  ⟨fun _ h => containerIdFromStr_enc h,
   fun _ _ h => containerIdFromStr_ok_inv h⟩

/-- Witness for C8 at the all-zero identifier. -/
theorem C8_bech32_roundtrip_validation_witness :
    hash32wf (List.replicate 32 0) ∧
    containerIdFromStr (containerIdToBech32 (List.replicate 32 0)) =
      .ok (List.replicate 32 0) :=
  ⟨by decide, C8_bech32_roundtrip_validation.1 _ (by decide)⟩

end Storm

